import Mathlib

/-!
Verification of the `extract_zip` Cloud Function (src/functions/main.py).

The function is triggered on a finalized storage object.  It routes on the
object key, downloads the zip, extracts it into a scratch directory,
re-uploads every extracted file under `user/{uid}/extracted/{base}/`,
checks for the marker `_chat.txt`, and if present copies every object under
the extracted directory to `user/{uid}/chats/{base}/` (chunked `rewrite`
loop, metadata-preserving) and finally upserts a Firestore cache document
at `users/{uid}/chatFoldersCache/{base}` with a server timestamp.

The embedding below models the storage bucket and the Firestore collection
as association lists updated in place, and the external effects (download
success, zip decoding, per-file upload failures, per-object copy failures,
chunked-rewrite continuation counts, the server timestamp) as an explicit
environment.  Every run also produces a trace of observable events so that
ordering properties (copy precedes cache write) can be stated.
-/

namespace WhatsappHistory

/-! ### Python string primitives used by the source -/

/-- Python `s.startswith(pre)`. -/
def pyStartsWith (s pre : String) : Bool := pre.data.isPrefixOf s.data

/-- Python `s.endswith(suf)`. -/
def pyEndsWith (s suf : String) : Bool := suf.data.isSuffixOf s.data

/-- Python `s.lower()` (character-wise lowercasing). -/
def pyLower (s : String) : String := ⟨s.data.map Char.toLower⟩

/-- Python `s.split(sep)` for a one-character separator: split at every
occurrence, keeping empty pieces. -/
def pySplit (s : String) (sep : Char) : List String :=
  (s.data.splitOn sep).map (fun l => ⟨l⟩)

/-- Python `len(s)` (in characters). -/
def pyLen (s : String) : Nat := s.data.length

/-- Python `s[n:]` (character slicing). -/
def pySlice (s : String) (n : Nat) : String := ⟨s.data.drop n⟩

/-- Python `s.rfind(c)`: index of the last occurrence of `c`, `-1` if absent. -/
def rfind (s : String) (c : Char) : Int :=
  match s.data.reverse.findIdx? (fun ch => ch == c) with
  | none => -1
  | some i => (s.data.length : Int) - 1 - (i : Int)

/-- Python `os.path.splitext(p)` (posix): split off the extension at the last
dot, provided that dot comes after the last path separator and the portion
of the final component before it is not all dots. -/
def splitext (p : String) : String × String :=
  let sepIndex := rfind p '/'
  let dotIndex := rfind p '.'
  if sepIndex < dotIndex then
    let stem := (p.data.take dotIndex.toNat).drop (sepIndex + 1).toNat
    if stem.any (fun ch => ch != '.') then
      (⟨p.data.take dotIndex.toNat⟩, ⟨p.data.drop dotIndex.toNat⟩)
    else (p, "")
  else (p, "")

/-! ### Storage bucket and Firestore models -/

/-- A storage object: byte content plus metadata (content type etc.), which
the chunked `rewrite` copy preserves. -/
structure Blob where
  content : List Nat
  contentType : Option String
deriving DecidableEq, Repr

/-- Association-list lookup (first binding wins). -/
def mapGet {κ ν : Type} [DecidableEq κ] : List (κ × ν) → κ → Option ν
  | [], _ => none
  | (k, v) :: rest, key => if k = key then some v else mapGet rest key

/-- Association-list upsert, updating the first binding in place and
appending a fresh binding at the end. -/
def mapPut {κ ν : Type} [DecidableEq κ] : List (κ × ν) → κ → ν → List (κ × ν)
  | [], key, v => [(key, v)]
  | (k, w) :: rest, key, v =>
    if k = key then (key, v) :: rest else (k, w) :: mapPut rest key v

/-- The storage bucket: object name to blob. -/
abbrev Store := List (String × Blob)

/-- The Firestore cache: (user id, folder name) to timestamp of the
`updated_at` field. -/
abbrev Cache := List ((String × String) × Nat)

/-- GCS `blob.exists()`. -/
def existsBlob (st : Store) (key : String) : Bool := (mapGet st key).isSome

/-- Key `key` lies under prefix `pre` (as `list_blobs` interprets it). -/
def underPre (pre key : String) : Bool := pre.data.isPrefixOf key.data

/-- GCS `list_blobs(prefix=pre)`: every object whose name starts with `pre`. -/
def listBlobs (st : Store) (pre : String) : List (String × Blob) :=
  st.filter (fun kb => underPre pre kb.1)

/-! ### Events and results -/

/-- Observable events of one run, in order of occurrence. -/
inductive Ev
  | uploaded (key : String)
  | uploadFailed (key : String)
  | markerCheck (present : Bool)
  | copied (src dst : String)
  | cacheWrite (uid base : String) (ts : Nat)
deriving DecidableEq, Repr

/-- Whether an event is a successful upload. -/
def Ev.isUploaded : Ev → Bool
  | .uploaded _ => true
  | _ => false

/-- Whether an event is a cache write. -/
def Ev.isCacheWrite : Ev → Bool
  | .cacheWrite _ _ _ => true
  | _ => false

/-- How one invocation of `extract_zip` terminates. -/
inductive RunResult
  | skipped
  | downloadFailed
  | badZip
  | extractError
  | copyError
  | done (uploaded : Nat)
deriving DecidableEq, Repr

/-- Outcome of decoding the downloaded bytes as a zip archive: the list of
(relative path, content) entries extracted into the scratch directory, or
`zipfile.BadZipFile`, or any other exception. -/
inductive ZipResult
  | ok (entries : List (String × List Nat))
  | badZip
  | extractError
deriving Repr

/-- External effects of one run: whether the download succeeds, how the
bytes decode, which destination keys fail to upload, which source objects
fail to copy, how many rewrite continuation rounds each object needs, and
the server timestamp assigned by Firestore. -/
structure Env where
  downloadOk : Bool
  zipResult : ZipResult
  uploadFailSet : List String
  copyFailSet : List String
  chunks : List (String × Nat)
  now : Nat

/-- The mutable world: the storage bucket and the Firestore cache. -/
structure World where
  store : Store
  cache : Cache
deriving DecidableEq, Repr

/-! ### PathRouter (main.py lines 44-63) -/

/-- Routing decision for an incoming object key. -/
inductive Route
  | skip
  | eligible (user_id zip_filename zip_name_base : String)
deriving DecidableEq, Repr

/-- Lines 44-63: skip unless the key starts with `user/`, has at least 4
segments, segment 2 is `uploads` and the key ends case-insensitively in
`.zip`; then extract `user_id = parts[1]`, `zip_filename = parts[-1]`,
`zip_name_base = splitext(zip_filename)[0]`; then the defensive
loop-prevention re-check of segment 2 against `extracted` and `chats`. -/
def pathRouter (file_path : String) : Route :=
  let parts := pySplit file_path '/'
  if !(pyStartsWith file_path "user/") || parts.length < 4
      || parts.getD 2 "" != "uploads"
      || !(pyEndsWith (pyLower file_path) ".zip") then
    .skip
  else
    let user_id := parts.getD 1 ""
    let zip_filename := parts.getLastD ""
    let zip_name_base := (splitext zip_filename).1
    if parts.getD 2 "" == "extracted" || parts.getD 2 "" == "chats" then
      .skip
    else
      .eligible user_id zip_filename zip_name_base

/-- The router with the defensive loop-prevention branch (lines 59-63)
removed; used to state that that branch is unreachable. -/
def pathRouterNoDefense (file_path : String) : Route :=
  let parts := pySplit file_path '/'
  if !(pyStartsWith file_path "user/") || parts.length < 4
      || parts.getD 2 "" != "uploads"
      || !(pyEndsWith (pyLower file_path) ".zip") then
    .skip
  else
    .eligible (parts.getD 1 "") (parts.getLastD "")
      (splitext (parts.getLastD "")).1

/-- The eligibility conditions of line 45, as a proposition. -/
def eligibleKey (file_path : String) : Prop :=
  pyStartsWith file_path "user/" = true ∧
  4 ≤ (pySplit file_path '/').length ∧
  (pySplit file_path '/').getD 2 "" = "uploads" ∧
  pyEndsWith (pyLower file_path) ".zip" = true

instance (p : String) : Decidable (eligibleKey p) := by
  unfold eligibleKey
  infer_instance

/-! ### Scratch directory contents -/

/-- Contents of the scratch directory after download and extraction: the
downloaded zip at relative path `zip_filename`, overwritten if the archive
itself contains an entry of that exact relative path, plus all extracted
entries. -/
def tempDirFiles (zip_filename : String) (zipContent : List Nat)
    (entries : List (String × List Nat)) : List (String × List Nat) :=
  if entries.any (fun e => e.1 == zip_filename) then entries
  else (zip_filename, zipContent) :: entries

/-! ### TreePublisher (main.py lines 97-119) -/

/-- A freshly uploaded blob (`upload_from_filename`): the file bytes, with
no copied-over metadata. -/
def uploadBlob (content : List Nat) : Blob :=
  { content := content, contentType := none }

/-- Lines 100-118: walk every file of the scratch directory; skip a file
whose basename equals the original zip filename; upload the rest to
`user/{user_id}/extracted/{zip_name_base}/{relative_path}`, catching each
individual upload failure and counting the successes. -/
def publishFiles (user_id zip_filename zip_name_base : String)
    (uploadFailSet : List String) :
    Store → Nat → List (String × List Nat) → Store × Nat × List Ev
  | st, upload_count, [] => (st, upload_count, [])
  | st, upload_count, (relative_path, content) :: rest =>
    if (pySplit relative_path '/').getLastD "" == zip_filename then
      publishFiles user_id zip_filename zip_name_base uploadFailSet
        st upload_count rest
    else
      let destination_blob_name :=
        "user/" ++ user_id ++ "/extracted/" ++ zip_name_base ++ "/"
          ++ relative_path
      if destination_blob_name ∈ uploadFailSet then
        let r := publishFiles user_id zip_filename zip_name_base uploadFailSet
          st upload_count rest
        (r.1, r.2.1, .uploadFailed destination_blob_name :: r.2.2)
      else
        let r := publishFiles user_id zip_filename zip_name_base uploadFailSet
          (mapPut st destination_blob_name (uploadBlob content))
          (upload_count + 1) rest
        (r.1, r.2.1, .uploaded destination_blob_name :: r.2.2)

/-! ### TreeCopier (main.py lines 131-152) -/

/-- Continuation rounds the backend requires for rewriting a given source
object (0 = the first rewrite call already completes). -/
def chunkCount (chunks : List (String × Nat)) (name : String) : Nat :=
  (mapGet chunks name).getD 0

/-- The token returned by one `rewrite` call of the backend, given how many
continuation rounds remain: `none` signals completion. -/
def rewriteResponse (remaining : Nat) : Option Nat :=
  if remaining = 0 then none else some (remaining - 1)

/-- Lines 144-147: issue a `rewrite` call and loop while the returned token
is not `none`; on completion the destination holds the source blob
(content and metadata).  Returns the store and the number of rewrite calls
made, counting the initial one. -/
def rewriteLoop (st : Store) (dstKey : String) (src : Blob) :
    Nat → Nat → Store × Nat
  | remaining, calls =>
    match h : rewriteResponse remaining with
    | none => (mapPut st dstKey src, calls + 1)
    | some r2 => rewriteLoop st dstKey src r2 (calls + 1)
termination_by remaining _ => remaining
decreasing_by
  simp only [rewriteResponse] at h
  split at h
  · cases h
  · cases h
    omega

/-- The full chunked copy of one blob: the rewrite loop started with the
initial call (no token). -/
def rewriteBlob (st : Store) (dstKey : String) (src : Blob)
    (remaining : Nat) : Store × Nat :=
  rewriteLoop st dstKey src remaining 0

/-- Lines 136-150: for each enumerated blob, derive the path relative to
the source prefix, rewrite it to the destination prefix (chunked loop),
and count it; a copy failure raises, aborting the loop with the partial
store (`Except.error`). -/
def copyBlobs (source_pre destination_pre : String)
    (copyFailSet : List String) (chunks : List (String × Nat)) :
    Store → Nat → List (String × Blob) →
    Except (Store × List Ev) (Store × Nat × List Ev)
  | st, copy_count, [] => .ok (st, copy_count, [])
  | st, copy_count, (name, blob) :: rest =>
    if name ∈ copyFailSet then .error (st, [])
    else
      let relative_blob_path := pySlice name (pyLen source_pre)
      let destination_blob_path := destination_pre ++ relative_blob_path
      let st2 := (rewriteBlob st destination_blob_path blob
        (chunkCount chunks name)).1
      match copyBlobs source_pre destination_pre copyFailSet chunks
          st2 (copy_count + 1) rest with
      | .ok (st3, n, evs) =>
        .ok (st3, n, .copied name destination_blob_path :: evs)
      | .error (st3, evs) =>
        .error (st3, .copied name destination_blob_path :: evs)

/-! ### MarkerDetector, TreeCopier and CompletionCache stage
(main.py lines 121-161) -/

/-- The marker object key `user/{uid}/extracted/{base}/_chat.txt`. -/
def markerKey (user_id zip_name_base : String) : String :=
  "user/" ++ user_id ++ "/extracted/" ++ zip_name_base ++ "/_chat.txt"

/-- The extracted prefix `user/{uid}/extracted/{base}/`. -/
def extractedPre (user_id zip_name_base : String) : String :=
  "user/" ++ user_id ++ "/extracted/" ++ zip_name_base ++ "/"

/-- The chats prefix `user/{uid}/chats/{base}/`. -/
def chatsPre (user_id zip_name_base : String) : String :=
  "user/" ++ user_id ++ "/chats/" ++ zip_name_base ++ "/"

/-- Lines 121-161, run on the post-publish store: check the marker; if
present, list the blobs under the extracted prefix; if that list is empty
only warn; otherwise copy each blob to the chats prefix (exceptions
propagate, flagged by the returned boolean) and, after the whole copy
succeeded, upsert the Firestore cache document with the server
timestamp. -/
def mirrorStage (env : Env) (user_id zip_name_base : String)
    (st : Store) (cache : Cache) : (Store × Cache × List Ev) × Bool :=
  let extracted_chat_file_path := markerKey user_id zip_name_base
  if existsBlob st extracted_chat_file_path then
    let source_pre := extractedPre user_id zip_name_base
    let destination_pre := chatsPre user_id zip_name_base
    let blobs_to_copy := listBlobs st source_pre
    if blobs_to_copy.isEmpty then
      ((st, cache, [.markerCheck true]), false)
    else
      match copyBlobs source_pre destination_pre env.copyFailSet env.chunks
          st 0 blobs_to_copy with
      | .error (st2, evs) =>
        ((st2, cache, .markerCheck true :: evs), true)
      | .ok (st2, _, evs) =>
        ((st2,
          mapPut cache (user_id, zip_name_base) env.now,
          .markerCheck true :: evs
            ++ [.cacheWrite user_id zip_name_base env.now]), false)
  else
    ((st, cache, [.markerCheck false]), false)

/-! ### The orchestrated function (main.py lines 29-171) -/

/-- Lines 97-161: the post-extraction phase.  Publish the scratch files,
then run the marker check, mirror copy and cache write on the post-publish
store; a propagated copy error ends the run as `copyError`. -/
def publishAndMirror (env : Env) (w : World)
    (user_id zip_filename zip_name_base : String)
    (files : List (String × List Nat)) : World × RunResult × List Ev :=
  let pub := publishFiles user_id zip_filename zip_name_base
    env.uploadFailSet w.store 0 files
  let mir := mirrorStage env user_id zip_name_base pub.1 w.cache
  if mir.2 then
    ({ store := mir.1.1, cache := mir.1.2.1 }, .copyError,
      pub.2.2 ++ mir.1.2.2)
  else
    ({ store := mir.1.1, cache := mir.1.2.1 }, .done pub.2.1,
      pub.2.2 ++ mir.1.2.2)

/-- The whole `extract_zip` handler: route on the key; download; extract;
publish the scratch directory; then the marker check, mirror copy and
cache write.  Returns the final world, how the run terminated, and the
trace of observable events. -/
def extract_zip (env : Env) (w : World) (file_path : String) :
    World × RunResult × List Ev :=
  match pathRouter file_path with
  | .skip => (w, .skipped, [])
  | .eligible user_id zip_filename zip_name_base =>
    if !env.downloadOk then (w, .downloadFailed, [])
    else
      match env.zipResult with
      | .badZip => (w, .badZip, [])
      | .extractError => (w, .extractError, [])
      | .ok entries =>
        let zipContent := ((mapGet w.store file_path).map Blob.content).getD []
        publishAndMirror env w user_id zip_filename zip_name_base
          (tempDirFiles zip_filename zipContent entries)

/-! ### Association-list lemmas -/

theorem mapGet_mapPut_self {κ ν : Type} [DecidableEq κ]
    (m : List (κ × ν)) (k : κ) (v : ν) : mapGet (mapPut m k v) k = some v := by
  induction m with
  | nil => simp [mapPut, mapGet]
  | cons kv rest ih =>
    obtain ⟨k1, v1⟩ := kv
    by_cases h : k1 = k
    · subst h; simp [mapPut, mapGet]
    · simp [mapPut, mapGet, h, ih]

theorem mapGet_mapPut_ne {κ ν : Type} [DecidableEq κ]
    (m : List (κ × ν)) (k : κ) (v : ν) {k' : κ} (h : k' ≠ k) :
    mapGet (mapPut m k v) k' = mapGet m k' := by
  induction m with
  | nil => simp [mapPut, mapGet, Ne.symm h]
  | cons kv rest ih =>
    obtain ⟨k1, v1⟩ := kv
    by_cases h1 : k1 = k
    · subst h1
      simp [mapPut, mapGet, Ne.symm h]
    · simp [mapPut, mapGet, h1, ih]

theorem mapPut_eq_of_mapGet {κ ν : Type} [DecidableEq κ]
    {m : List (κ × ν)} {k : κ} {v : ν} (h : mapGet m k = some v) :
    mapPut m k v = m := by
  induction m with
  | nil => simp [mapGet] at h
  | cons kv rest ih =>
    obtain ⟨k1, v1⟩ := kv
    by_cases h1 : k1 = k
    · subst h1
      simp only [mapGet, if_true, eq_self_iff_true, if_pos] at h
      rw [Option.some_inj] at h
      subst h
      simp [mapPut]
    · simp only [mapGet, if_neg h1] at h
      simp [mapPut, h1, ih h]

theorem mem_of_mapGet_eq_some {κ ν : Type} [DecidableEq κ]
    {m : List (κ × ν)} {k : κ} {v : ν} (h : mapGet m k = some v) :
    (k, v) ∈ m := by
  induction m with
  | nil => simp [mapGet] at h
  | cons kv rest ih =>
    obtain ⟨k1, v1⟩ := kv
    by_cases h1 : k1 = k
    · subst h1
      simp only [mapGet, if_true, eq_self_iff_true, if_pos] at h
      rw [Option.some_inj] at h
      subst h
      exact List.mem_cons_self _ _
    · simp only [mapGet, if_neg h1] at h
      exact List.mem_cons_of_mem _ (ih h)

theorem mapGet_of_mem_nodup {κ ν : Type} [DecidableEq κ]
    {m : List (κ × ν)} {k : κ} {v : ν} (hnd : (m.map Prod.fst).Nodup)
    (h : (k, v) ∈ m) : mapGet m k = some v := by
  induction m with
  | nil => simp at h
  | cons kv rest ih =>
    obtain ⟨k1, v1⟩ := kv
    simp only [List.map_cons, List.nodup_cons] at hnd
    rcases List.mem_cons.mp h with h | h
    · cases h
      simp [mapGet]
    · have hk1 : k1 ≠ k := by
        intro he
        subst he
        exact hnd.1 (List.mem_map.mpr ⟨(k1, v), h, rfl⟩)
      simp [mapGet, hk1, ih hnd.2 h]

theorem map_fst_mapPut_of_isSome {κ ν : Type} [DecidableEq κ]
    {m : List (κ × ν)} {k : κ} (v : ν) (h : (mapGet m k).isSome) :
    (mapPut m k v).map Prod.fst = m.map Prod.fst := by
  induction m with
  | nil => simp [mapGet] at h
  | cons kv rest ih =>
    obtain ⟨k1, v1⟩ := kv
    by_cases h1 : k1 = k
    · subst h1
      simp [mapPut]
    · simp only [mapGet, if_neg h1] at h
      simp [mapPut, h1, ih h]

theorem mapPut_mem_cases {κ ν : Type} [DecidableEq κ]
    {m : List (κ × ν)} {k : κ} {v : ν} {p : κ × ν} (h : p ∈ mapPut m k v) :
    p ∈ m ∨ p.1 = k := by
  induction m with
  | nil =>
    simp only [mapPut, List.mem_singleton] at h
    subst h
    exact Or.inr rfl
  | cons kv rest ih =>
    obtain ⟨k1, v1⟩ := kv
    by_cases h1 : k1 = k
    · subst h1
      simp only [mapPut, if_true, eq_self_iff_true, if_pos, List.mem_cons] at h
      rcases h with h2 | h2
      · subst h2
        exact Or.inr rfl
      · exact Or.inl (List.mem_cons_of_mem _ h2)
    · simp only [mapPut, if_neg h1, List.mem_cons] at h
      rcases h with h2 | h2
      · subst h2
        exact Or.inl (List.mem_cons_self _ _)
      · rcases ih h2 with h3 | h3
        · exact Or.inl (List.mem_cons_of_mem _ h3)
        · exact Or.inr h3

theorem nodup_map_fst_mapPut {κ ν : Type} [DecidableEq κ]
    {m : List (κ × ν)} (k : κ) (v : ν) (hnd : (m.map Prod.fst).Nodup) :
    ((mapPut m k v).map Prod.fst).Nodup := by
  induction m with
  | nil => simp [mapPut]
  | cons kv rest ih =>
    obtain ⟨k1, v1⟩ := kv
    simp only [List.map_cons, List.nodup_cons] at hnd
    by_cases h1 : k1 = k
    · subst h1
      simp only [mapPut, if_true, eq_self_iff_true, if_pos, List.map_cons,
        List.nodup_cons]
      exact ⟨hnd.1, hnd.2⟩
    · simp only [mapPut, if_neg h1, List.map_cons, List.nodup_cons]
      constructor
      · intro hmem
        rcases List.mem_map.mp hmem with ⟨p, hp, hpe⟩
        rcases mapPut_mem_cases hp with hc | hc
        · exact hnd.1 (List.mem_map.mpr ⟨p, hc, hpe⟩)
        · rw [hpe] at hc
          exact h1 hc
      · exact ih hnd.2

/-! ### String and prefix lemmas -/

theorem underPre_iff {pre k : String} :
    underPre pre k = true ↔ pre.data <+: k.data := by
  simp [underPre, List.isPrefixOf_iff_prefix]

theorem underPre_append (pre r : String) : underPre pre (pre ++ r) = true := by
  simp [underPre, String.data_append, List.isPrefixOf_iff_prefix,
    List.prefix_append]

theorem pyLen_data (s : String) : pyLen s = s.data.length := rfl

theorem pySlice_append (pre r : String) : pySlice (pre ++ r) (pyLen pre) = r := by
  apply String.ext
  simp [pySlice, pyLen, String.data_append, List.drop_left]

theorem eq_append_of_underPre {pre k : String} (h : underPre pre k = true) :
    k = pre ++ pySlice k (pyLen pre) := by
  have hp := underPre_iff.mp h
  rcases hp with ⟨t, ht⟩
  apply String.ext
  simp only [String.data_append, pySlice, pyLen]
  rw [← ht]
  simp [List.drop_left]

theorem append_right_cancel_str {a r1 r2 : String} (h : a ++ r1 = a ++ r2) :
    r1 = r2 := by
  apply String.ext
  have hd : a.data ++ r1.data = a.data ++ r2.data := by
    have := congrArg String.data h
    simpa [String.data_append] using this
  exact List.append_cancel_left hd

theorem no_pre_of_mismatch {A r1 r2 : List Char} {c1 c2 : Char}
    (h : c1 ≠ c2) : ¬ ((A ++ c1 :: r1) <+: (A ++ c2 :: r2)) := by
  intro hp
  have h2 := (List.prefix_append_right_inj A).mp hp
  rw [List.cons_prefix_cons] at h2
  exact h h2.1

/-! Shape normal forms for the three key families: each key is the shared
stem `user/{uid}/` followed by a distinguishing first character. -/

theorem shape_extracted (u b x : String) :
    ((extractedPre u b) ++ x).data
      = ("user/" ++ u ++ "/").data
        ++ 'e' :: ("xtracted/" ++ b ++ "/" ++ x).data := by
  have lit : ("/extracted/" : String).data
      = '/' :: 'e' :: ("xtracted/" : String).data := rfl
  simp [extractedPre, String.data_append, lit]

theorem shape_extracted_bare (u b : String) :
    (extractedPre u b).data
      = ("user/" ++ u ++ "/").data ++ 'e' :: ("xtracted/" ++ b ++ "/").data := by
  have h := shape_extracted u b ""
  simpa using h

theorem shape_chats (u b x : String) :
    ((chatsPre u b) ++ x).data
      = ("user/" ++ u ++ "/").data ++ 'c' :: ("hats/" ++ b ++ "/" ++ x).data := by
  have lit : ("/chats/" : String).data
      = '/' :: 'c' :: ("hats/" : String).data := rfl
  simp [chatsPre, String.data_append, lit]

theorem shape_chats_bare (u b : String) :
    (chatsPre u b).data
      = ("user/" ++ u ++ "/").data ++ 'c' :: ("hats/" ++ b ++ "/").data := by
  have h := shape_chats u b ""
  simpa using h

theorem not_under_extracted_chats (u b b' x : String) :
    underPre (extractedPre u b) (chatsPre u b' ++ x) = false := by
  refine Bool.eq_false_iff.mpr ?_
  intro h
  have hp := underPre_iff.mp h
  rw [shape_extracted_bare, shape_chats] at hp
  exact no_pre_of_mismatch (by decide) hp

theorem not_under_chats_extracted (u b b' x : String) :
    underPre (chatsPre u b) (extractedPre u b' ++ x) = false := by
  refine Bool.eq_false_iff.mpr ?_
  intro h
  have hp := underPre_iff.mp h
  rw [shape_chats_bare, shape_extracted] at hp
  exact no_pre_of_mismatch (by decide) hp

theorem chats_key_ne_extracted_key (u b b' x y : String) :
    chatsPre u b ++ x ≠ extractedPre u b' ++ y := by
  intro h
  have h1 : underPre (chatsPre u b) (chatsPre u b ++ x) = true :=
    underPre_append _ _
  rw [h] at h1
  rw [not_under_chats_extracted] at h1
  cases h1

/-! ### listBlobs lemmas -/

theorem mem_listBlobs {st : Store} {pre k : String} {b : Blob} :
    (k, b) ∈ listBlobs st pre ↔ (k, b) ∈ st ∧ underPre pre k = true := by
  simp [listBlobs, List.mem_filter]

theorem listBlobs_mapPut_of_not_under {st : Store} {pre k : String} (b : Blob)
    (h : underPre pre k = false) :
    listBlobs (mapPut st k b) pre = listBlobs st pre := by
  induction st with
  | nil => simp [mapPut, listBlobs, h]
  | cons kv rest ih =>
    obtain ⟨k1, b1⟩ := kv
    by_cases h1 : k1 = k
    · subst h1
      simp only [mapPut, if_true, eq_self_iff_true, if_pos, listBlobs,
        List.filter_cons, h]
      simp
    · simp only [mapPut, if_neg h1, listBlobs, List.filter_cons]
      simp only [listBlobs] at ih
      by_cases h2 : underPre pre k1 = true
      · simp [h2, ih]
      · simp only [Bool.not_eq_true] at h2
        simp [h2, ih]

theorem nodup_names_listBlobs {st : Store} (pre : String)
    (h : (st.map Prod.fst).Nodup) :
    ((listBlobs st pre).map Prod.fst).Nodup := by
  have hsub : List.Sublist (listBlobs st pre) st := List.filter_sublist st
  exact List.Nodup.sublist (hsub.map Prod.fst) h

theorem listBlobs_ne_nil_of_marker {st : Store} {u b : String}
    (h : existsBlob st (markerKey u b) = true) :
    listBlobs st (extractedPre u b) ≠ [] := by
  simp only [existsBlob, Option.isSome_iff_exists] at h
  rcases h with ⟨blob, hblob⟩
  have hmem : (markerKey u b, blob) ∈ st := mem_of_mapGet_eq_some hblob
  have hunder : underPre (extractedPre u b) (markerKey u b) = true := by
    have : markerKey u b = extractedPre u b ++ "_chat.txt" := by
      simp [markerKey, extractedPre, String.append_assoc]
    rw [this]
    exact underPre_append _ _
  intro hnil
  have : (markerKey u b, blob) ∈ listBlobs st (extractedPre u b) :=
    mem_listBlobs.mpr ⟨hmem, hunder⟩
  rw [hnil] at this
  simp at this

/-! ### Rewrite-loop lemmas -/

theorem rewriteLoop_eq (st : Store) (k : String) (src : Blob) :
    ∀ remaining calls, rewriteLoop st k src remaining calls
      = (mapPut st k src, calls + remaining + 1) := by
  intro remaining
  induction remaining with
  | zero =>
    intro calls
    rw [rewriteLoop]
    simp [rewriteResponse]
  | succ n ih =>
    intro calls
    rw [rewriteLoop]
    have hr : rewriteResponse (n + 1) = some n := by
      simp [rewriteResponse]
    rw [hr]
    show rewriteLoop st k src n (calls + 1)
      = (mapPut st k src, calls + (n + 1) + 1)
    rw [ih]
    have harith : calls + 1 + n + 1 = calls + (n + 1) + 1 := by omega
    rw [harith]

theorem rewriteBlob_eq (st : Store) (k : String) (src : Blob) (r : Nat) :
    rewriteBlob st k src r = (mapPut st k src, r + 1) := by
  simp [rewriteBlob, rewriteLoop_eq]

/-! ### Copy-stage helper functions and lemmas -/

/-- The destination key of one copied object. -/
def copyDst (source_pre destination_pre name : String) : String :=
  destination_pre ++ pySlice name (pyLen source_pre)

/-- The net effect of a fully successful copy loop on the store. -/
def copyFold (source_pre destination_pre : String) (st : Store)
    (l : List (String × Blob)) : Store :=
  l.foldl (fun s nb => mapPut s (copyDst source_pre destination_pre nb.1) nb.2) st

/-- The store a copy run ends in, successful or aborted. -/
def copyResStore : Except (Store × List Ev) (Store × Nat × List Ev) → Store
  | .ok (st, _, _) => st
  | .error (st, _) => st

theorem copyBlobs_ok_of_no_fail (sp dp : String) (fs : List String)
    (ch : List (String × Nat)) :
    ∀ (l : List (String × Blob)) (st : Store) (n : Nat),
      (∀ x ∈ l, x.1 ∉ fs) →
      copyBlobs sp dp fs ch st n l
        = .ok (copyFold sp dp st l, n + l.length,
            l.map (fun nb => Ev.copied nb.1 (copyDst sp dp nb.1))) := by
  intro l
  induction l with
  | nil =>
    intro st n _
    simp [copyBlobs, copyFold]
  | cons nb rest ih =>
    intro st n hf
    obtain ⟨name, blob⟩ := nb
    have hn : name ∉ fs := hf (name, blob) (List.mem_cons_self _ _)
    simp only [copyBlobs, if_neg hn, rewriteBlob_eq]
    rw [ih _ _ (fun x hx => hf x (List.mem_cons_of_mem _ hx))]
    simp only [copyFold, copyDst, List.foldl_cons, List.map_cons,
      List.length_cons]
    refine congrArg Except.ok (Prod.ext rfl (Prod.ext ?_ rfl))
    simp
    omega

theorem copyFold_get_other (sp dp : String) :
    ∀ (l : List (String × Blob)) (st : Store) (k : String),
      (∀ nb ∈ l, k ≠ copyDst sp dp nb.1) →
      mapGet (copyFold sp dp st l) k = mapGet st k := by
  intro l
  induction l with
  | nil =>
    intro st k _
    simp [copyFold]
  | cons nb rest ih =>
    intro st k hk
    simp only [copyFold, List.foldl_cons]
    rw [show List.foldl (fun s x => mapPut s (copyDst sp dp x.1) x.2)
        (mapPut st (copyDst sp dp nb.1) nb.2) rest
      = copyFold sp dp (mapPut st (copyDst sp dp nb.1) nb.2) rest from rfl]
    rw [ih _ _ (fun x hx => hk x (List.mem_cons_of_mem _ hx))]
    exact mapGet_mapPut_ne _ _ _ (hk nb (List.mem_cons_self _ _))

theorem copyFold_get_mem (sp dp : String) :
    ∀ (l : List (String × Blob)) (st : Store),
      ((l.map Prod.fst).Nodup) →
      (∀ nb ∈ l, underPre sp nb.1 = true) →
      ∀ name blob, (name, blob) ∈ l →
        mapGet (copyFold sp dp st l) (copyDst sp dp name) = some blob := by
  intro l
  induction l with
  | nil =>
    intro st _ _ name blob h
    simp at h
  | cons nb rest ih =>
    intro st hnd hun name blob hmem
    simp only [List.map_cons, List.nodup_cons] at hnd
    rcases List.mem_cons.mp hmem with h | h
    · cases h
      simp only [copyFold, List.foldl_cons]
      rw [show List.foldl (fun s x => mapPut s (copyDst sp dp x.1) x.2)
          (mapPut st (copyDst sp dp name) blob) rest
        = copyFold sp dp (mapPut st (copyDst sp dp name) blob) rest from rfl]
      rw [copyFold_get_other sp dp rest _ _ ?hother]
      · exact mapGet_mapPut_self _ _ _
      case hother =>
        intro x hx he
        have hux : underPre sp x.1 = true := hun x (List.mem_cons_of_mem _ hx)
        have hun0 : underPre sp name = true := hun _ (List.mem_cons_self _ _)
        have hr : pySlice name (pyLen sp) = pySlice x.1 (pyLen sp) :=
          append_right_cancel_str he
        have : name = x.1 := by
          rw [eq_append_of_underPre hun0, eq_append_of_underPre hux, hr]
        exact hnd.1 (this ▸ List.mem_map.mpr ⟨x, hx, rfl⟩)
    · simp only [copyFold, List.foldl_cons]
      exact ih _ hnd.2 (fun x hx => hun x (List.mem_cons_of_mem _ hx)) name blob h

theorem copyBlobs_resStore_get_not_under (sp dp : String) (fs : List String)
    (ch : List (String × Nat)) :
    ∀ (l : List (String × Blob)) (st : Store) (n : Nat) (k : String),
      underPre dp k = false →
      mapGet (copyResStore (copyBlobs sp dp fs ch st n l)) k = mapGet st k := by
  intro l
  induction l with
  | nil =>
    intro st n k _
    simp [copyBlobs, copyResStore]
  | cons nb rest ih =>
    intro st n k hk
    obtain ⟨name, blob⟩ := nb
    by_cases hn : name ∈ fs
    · simp [copyBlobs, hn, copyResStore]
    · have hne : k ≠ dp ++ pySlice name (pyLen sp) := by
        intro he
        rw [he, underPre_append] at hk
        cases hk
      simp only [copyBlobs, if_neg hn, rewriteBlob_eq]
      have hrec := ih (mapPut st (dp ++ pySlice name (pyLen sp)) blob)
        (n + 1) k hk
      rcases hres : copyBlobs sp dp fs ch
          (mapPut st (dp ++ pySlice name (pyLen sp)) blob) (n + 1) rest
        with r | r
      · obtain ⟨st3, evs⟩ := r
        rw [hres] at hrec
        simp only [copyResStore] at hrec ⊢
        rw [hrec]
        exact mapGet_mapPut_ne _ _ _ hne
      · obtain ⟨st3, n3, evs⟩ := r
        rw [hres] at hrec
        simp only [copyResStore] at hrec ⊢
        rw [hrec]
        exact mapGet_mapPut_ne _ _ _ hne

theorem copyBlobs_resStore_listBlobs (sp dp : String) (fs : List String)
    (ch : List (String × Nat)) (sp2 : String)
    (hdisj : ∀ r : String, underPre sp2 (dp ++ r) = false) :
    ∀ (l : List (String × Blob)) (st : Store) (n : Nat),
      listBlobs (copyResStore (copyBlobs sp dp fs ch st n l)) sp2
        = listBlobs st sp2 := by
  intro l
  induction l with
  | nil =>
    intro st n
    simp [copyBlobs, copyResStore]
  | cons nb rest ih =>
    intro st n
    obtain ⟨name, blob⟩ := nb
    by_cases hn : name ∈ fs
    · simp [copyBlobs, hn, copyResStore]
    · simp only [copyBlobs, if_neg hn, rewriteBlob_eq]
      have hrec := ih (mapPut st (dp ++ pySlice name (pyLen sp)) blob) (n + 1)
      rcases hres : copyBlobs sp dp fs ch
          (mapPut st (dp ++ pySlice name (pyLen sp)) blob) (n + 1) rest
        with r | r
      · obtain ⟨st3, evs⟩ := r
        rw [hres] at hrec
        simp only [copyResStore] at hrec ⊢
        rw [hrec]
        exact listBlobs_mapPut_of_not_under _ (hdisj _)
      · obtain ⟨st3, n3, evs⟩ := r
        rw [hres] at hrec
        simp only [copyResStore] at hrec ⊢
        rw [hrec]
        exact listBlobs_mapPut_of_not_under _ (hdisj _)

theorem nodup_copyResStore (sp dp : String) (fs : List String)
    (ch : List (String × Nat)) :
    ∀ (l : List (String × Blob)) (st : Store) (n : Nat),
      (st.map Prod.fst).Nodup →
      ((copyResStore (copyBlobs sp dp fs ch st n l)).map Prod.fst).Nodup := by
  intro l
  induction l with
  | nil =>
    intro st n h
    simpa [copyBlobs, copyResStore] using h
  | cons nb rest ih =>
    intro st n h
    obtain ⟨name, blob⟩ := nb
    by_cases hn : name ∈ fs
    · simpa [copyBlobs, hn, copyResStore] using h
    · simp only [copyBlobs, if_neg hn, rewriteBlob_eq]
      have hrec := ih (mapPut st (dp ++ pySlice name (pyLen sp)) blob) (n + 1)
        (nodup_map_fst_mapPut _ _ h)
      rcases hres : copyBlobs sp dp fs ch
          (mapPut st (dp ++ pySlice name (pyLen sp)) blob) (n + 1) rest
        with r | r
      · obtain ⟨st3, evs⟩ := r
        rw [hres] at hrec
        simpa [copyResStore] using hrec
      · obtain ⟨st3, n3, evs⟩ := r
        rw [hres] at hrec
        simpa [copyResStore] using hrec

theorem copyBlobs_error_of_fail (sp dp : String) (fs : List String)
    (ch : List (String × Nat)) :
    ∀ (l : List (String × Blob)) (st : Store) (n : Nat),
      (∃ nb ∈ l, nb.1 ∈ fs) →
      ∃ l1 nb l2, l = l1 ++ nb :: l2 ∧ nb.1 ∈ fs ∧ (∀ x ∈ l1, x.1 ∉ fs) ∧
        copyBlobs sp dp fs ch st n l
          = .error (copyFold sp dp st l1,
              l1.map (fun x => Ev.copied x.1 (copyDst sp dp x.1))) := by
  intro l
  induction l with
  | nil =>
    intro st n h
    simp at h
  | cons nb0 rest ih =>
    intro st n h
    obtain ⟨name, blob⟩ := nb0
    by_cases hn : name ∈ fs
    · refine ⟨[], (name, blob), rest, by simp, hn, by simp, ?_⟩
      simp [copyBlobs, hn, copyFold]
    · have hex : ∃ nb ∈ rest, nb.1 ∈ fs := by
        rcases h with ⟨nb, hmem, hnb⟩
        rcases List.mem_cons.mp hmem with he | he
        · subst he
          exact absurd hnb hn
        · exact ⟨nb, he, hnb⟩
      rcases ih (mapPut st (copyDst sp dp name) blob) (n + 1) hex with
        ⟨l1, nb, l2, hsplit, hnb, hl1, heq⟩
      refine ⟨(name, blob) :: l1, nb, l2, by simp [hsplit], hnb, ?_, ?_⟩
      · intro x hx
        rcases List.mem_cons.mp hx with he | he
        · cases he
          exact hn
        · exact hl1 x he
      · have heq2 : copyBlobs sp dp fs ch
            (mapPut st (dp ++ pySlice name (pyLen sp)) blob) (n + 1) rest
          = Except.error (copyFold sp dp
              (mapPut st (dp ++ pySlice name (pyLen sp)) blob) l1,
              List.map (fun x => Ev.copied x.1 (copyDst sp dp x.1)) l1) := heq
        simp only [copyBlobs, if_neg hn, rewriteBlob_eq, heq2]
        simp [copyFold, copyDst, List.map_cons]

/-! ### Publisher helper function and lemmas -/

/-- The destination key of one published file (line 109). -/
def pubDst (user_id zip_name_base relative_path : String) : String :=
  "user/" ++ user_id ++ "/extracted/" ++ zip_name_base ++ "/" ++ relative_path

theorem pubDst_eq (u b rel : String) :
    pubDst u b rel = extractedPre u b ++ rel := by
  simp [pubDst, extractedPre, String.append_assoc]

theorem pubDst_inj {u b rel rel' : String}
    (h : pubDst u b rel = pubDst u b rel') : rel = rel' := by
  rw [pubDst_eq, pubDst_eq] at h
  exact append_right_cancel_str h

theorem publishFiles_get_other (u f b : String) (fails : List String) :
    ∀ (files : List (String × List Nat)) (st : Store) (n : Nat) (k : String),
      (∀ rc ∈ files, k ≠ pubDst u b rc.1) →
      mapGet (publishFiles u f b fails st n files).1 k = mapGet st k := by
  intro files
  induction files with
  | nil =>
    intro st n k _
    simp [publishFiles]
  | cons rc rest ih =>
    intro st n k hk
    obtain ⟨rel, c⟩ := rc
    have hkrest : ∀ rc ∈ rest, k ≠ pubDst u b rc.1 :=
      fun x hx => hk x (List.mem_cons_of_mem _ hx)
    by_cases hskip : ((pySplit rel '/').getLastD "" == f) = true
    · simp only [publishFiles, if_pos hskip]
      exact ih st n k hkrest
    · by_cases hfail :
        ("user/" ++ u ++ "/extracted/" ++ b ++ "/" ++ rel) ∈ fails
      · simp only [publishFiles, if_neg hskip, if_pos hfail]
        exact ih st n k hkrest
      · simp only [publishFiles, if_neg hskip, if_neg hfail]
        rw [ih _ (n + 1) k hkrest]
        exact mapGet_mapPut_ne _ _ _ (hk (rel, c) (List.mem_cons_self _ _))

theorem publishFiles_get_mem (u f b : String) (fails : List String) :
    ∀ (files : List (String × List Nat)) (st : Store) (n : Nat),
      ((files.map Prod.fst).Nodup) →
      ∀ rel c, (rel, c) ∈ files →
        ((pySplit rel '/').getLastD "" == f) = false →
        pubDst u b rel ∉ fails →
        mapGet (publishFiles u f b fails st n files).1 (pubDst u b rel)
          = some (uploadBlob c) := by
  intro files
  induction files with
  | nil =>
    intro st n _ rel c h
    simp at h
  | cons rc rest ih =>
    intro st n hnd rel c hmem hskip hfail
    simp only [List.map_cons, List.nodup_cons] at hnd
    rcases List.mem_cons.mp hmem with h | h
    · cases h
      have hskip2 : ¬ (((pySplit rel '/').getLastD "" == f) = true) := by
        rw [hskip]
        simp
      have hfail2 : ("user/" ++ u ++ "/extracted/" ++ b ++ "/" ++ rel) ∉ fails :=
        hfail
      simp only [publishFiles, if_neg hskip2, if_neg hfail2]
      rw [publishFiles_get_other u f b fails rest _ _ _ ?hother]
      · exact mapGet_mapPut_self _ _ _
      case hother =>
        intro x hx he
        have : rel = x.1 := pubDst_inj he
        exact hnd.1 (this ▸ List.mem_map.mpr ⟨x, hx, rfl⟩)
    · by_cases hskip0 : (((pySplit rc.1 '/').getLastD "" == f) = true)
      · obtain ⟨rel0, c0⟩ := rc
        simp only [publishFiles, if_pos hskip0]
        exact ih st n hnd.2 rel c h hskip hfail
      · obtain ⟨rel0, c0⟩ := rc
        by_cases hfail0 :
          ("user/" ++ u ++ "/extracted/" ++ b ++ "/" ++ rel0) ∈ fails
        · simp only [publishFiles, if_neg hskip0, if_pos hfail0]
          exact ih st n hnd.2 rel c h hskip hfail
        · simp only [publishFiles, if_neg hskip0, if_neg hfail0]
          exact ih _ _ hnd.2 rel c h hskip hfail

theorem publishFiles_uploaded_ev (u f b : String) (fails : List String) :
    ∀ (files : List (String × List Nat)) (st : Store) (n : Nat),
      ∀ rel c, (rel, c) ∈ files →
        ((pySplit rel '/').getLastD "" == f) = false →
        pubDst u b rel ∉ fails →
        Ev.uploaded (pubDst u b rel) ∈ (publishFiles u f b fails st n files).2.2 := by
  intro files
  induction files with
  | nil =>
    intro st n rel c h
    simp at h
  | cons rc rest ih =>
    intro st n rel c hmem hskip hfail
    rcases List.mem_cons.mp hmem with h | h
    · cases h
      have hskip2 : ¬ (((pySplit rel '/').getLastD "" == f) = true) := by
        rw [hskip]
        simp
      have hfail2 : ("user/" ++ u ++ "/extracted/" ++ b ++ "/" ++ rel) ∉ fails :=
        hfail
      simp only [publishFiles, if_neg hskip2, if_neg hfail2]
      exact List.mem_cons_self _ _
    · obtain ⟨rel0, c0⟩ := rc
      by_cases hskip0 : (((pySplit rel0 '/').getLastD "" == f) = true)
      · simp only [publishFiles, if_pos hskip0]
        exact ih st n rel c h hskip hfail
      · by_cases hfail0 :
          ("user/" ++ u ++ "/extracted/" ++ b ++ "/" ++ rel0) ∈ fails
        · simp only [publishFiles, if_neg hskip0, if_pos hfail0]
          exact List.mem_cons_of_mem _ (ih st n rel c h hskip hfail)
        · simp only [publishFiles, if_neg hskip0, if_neg hfail0]
          exact List.mem_cons_of_mem _ (ih _ _ rel c h hskip hfail)

theorem publishFiles_count (u f b : String) (fails : List String) :
    ∀ (files : List (String × List Nat)) (st : Store) (n : Nat),
      (publishFiles u f b fails st n files).2.1
        = n + ((publishFiles u f b fails st n files).2.2.filter
            Ev.isUploaded).length := by
  intro files
  induction files with
  | nil =>
    intro st n
    simp [publishFiles]
  | cons rc rest ih =>
    intro st n
    obtain ⟨rel, c⟩ := rc
    by_cases hskip : (((pySplit rel '/').getLastD "" == f) = true)
    · simp only [publishFiles, if_pos hskip]
      exact ih st n
    · by_cases hfail :
        ("user/" ++ u ++ "/extracted/" ++ b ++ "/" ++ rel) ∈ fails
      · simp only [publishFiles, if_neg hskip, if_pos hfail]
        have hih := ih st n
        simp [Ev.isUploaded, List.filter_cons]
        omega
      · simp only [publishFiles, if_neg hskip, if_neg hfail]
        have hih := ih (mapPut st
          ("user/" ++ u ++ "/extracted/" ++ b ++ "/" ++ rel)
          (uploadBlob c)) (n + 1)
        simp [Ev.isUploaded, List.filter_cons]
        omega

theorem nodup_publishFiles (u f b : String) (fails : List String) :
    ∀ (files : List (String × List Nat)) (st : Store) (n : Nat),
      (st.map Prod.fst).Nodup →
      ((publishFiles u f b fails st n files).1.map Prod.fst).Nodup := by
  intro files
  induction files with
  | nil =>
    intro st n h
    simpa [publishFiles] using h
  | cons rc rest ih =>
    intro st n h
    obtain ⟨rel, c⟩ := rc
    by_cases hskip : (((pySplit rel '/').getLastD "" == f) = true)
    · simp only [publishFiles, if_pos hskip]
      exact ih st n h
    · by_cases hfail :
        ("user/" ++ u ++ "/extracted/" ++ b ++ "/" ++ rel) ∈ fails
      · simp only [publishFiles, if_neg hskip, if_pos hfail]
        exact ih st n h
      · simp only [publishFiles, if_neg hskip, if_neg hfail]
        exact ih _ _ (nodup_map_fst_mapPut _ _ h)

theorem publishFiles_fix (u f b : String) (fails : List String) :
    ∀ (files : List (String × List Nat)) (st : Store) (n : Nat),
      (∀ rel c, (rel, c) ∈ files →
        ((pySplit rel '/').getLastD "" == f) = false →
        pubDst u b rel ∉ fails →
        mapGet st (pubDst u b rel) = some (uploadBlob c)) →
      (publishFiles u f b fails st n files).1 = st := by
  intro files
  induction files with
  | nil =>
    intro st n _
    simp [publishFiles]
  | cons rc rest ih =>
    intro st n hget
    obtain ⟨rel, c⟩ := rc
    have hgetrest : ∀ rel' c', (rel', c') ∈ rest →
        ((pySplit rel' '/').getLastD "" == f) = false →
        pubDst u b rel' ∉ fails →
        mapGet st (pubDst u b rel') = some (uploadBlob c') :=
      fun rel' c' hx => hget rel' c' (List.mem_cons_of_mem _ hx)
    by_cases hskip : (((pySplit rel '/').getLastD "" == f) = true)
    · simp only [publishFiles, if_pos hskip]
      exact ih st n hgetrest
    · by_cases hfail :
        ("user/" ++ u ++ "/extracted/" ++ b ++ "/" ++ rel) ∈ fails
      · simp only [publishFiles, if_neg hskip, if_pos hfail]
        exact ih st n hgetrest
      · simp only [publishFiles, if_neg hskip, if_neg hfail]
        have hput : mapPut st ("user/" ++ u ++ "/extracted/" ++ b ++ "/" ++ rel)
            (uploadBlob c) = st :=
          mapPut_eq_of_mapGet (hget rel c (List.mem_cons_self _ _)
            (Bool.eq_false_iff.mpr hskip) hfail)
        rw [hput]
        exact ih st (n + 1) hgetrest

/-! ### Mirror-stage lemmas -/

theorem mirrorStage_absent (env : Env) (u b : String) (st : Store)
    (cache : Cache) (hm : existsBlob st (markerKey u b) = false) :
    mirrorStage env u b st cache = ((st, cache, [Ev.markerCheck false]), false) := by
  simp [mirrorStage, hm]

theorem mirrorStage_present_ok (env : Env) (u b : String) (st : Store)
    (cache : Cache) (hm : existsBlob st (markerKey u b) = true)
    (hcf : env.copyFailSet = []) :
    mirrorStage env u b st cache
      = ((copyFold (extractedPre u b) (chatsPre u b) st
            (listBlobs st (extractedPre u b)),
          mapPut cache (u, b) env.now,
          (Ev.markerCheck true
            :: (listBlobs st (extractedPre u b)).map
              (fun nb => Ev.copied nb.1
                (copyDst (extractedPre u b) (chatsPre u b) nb.1)))
            ++ [Ev.cacheWrite u b env.now]), false) := by
  have hne : listBlobs st (extractedPre u b) ≠ [] :=
    listBlobs_ne_nil_of_marker hm
  have hempty : (listBlobs st (extractedPre u b)).isEmpty = false := by
    rw [List.isEmpty_eq_false]
    exact hne
  have hfs : ∀ x ∈ listBlobs st (extractedPre u b), x.1 ∉ env.copyFailSet := by
    rw [hcf]
    intro x _ hx
    simp at hx
  have hcopy := copyBlobs_ok_of_no_fail (extractedPre u b) (chatsPre u b)
    env.copyFailSet env.chunks (listBlobs st (extractedPre u b)) st 0 hfs
  simp only [mirrorStage, hm, if_true, hempty, Bool.false_eq_true, if_false,
    hcopy]

theorem mirrorStage_present_err (env : Env) (u b : String) (st : Store)
    (cache : Cache) (hm : existsBlob st (markerKey u b) = true)
    (hfail : ∃ nb ∈ listBlobs st (extractedPre u b), nb.1 ∈ env.copyFailSet) :
    ∃ l1, (∀ x ∈ l1, x ∈ listBlobs st (extractedPre u b)) ∧
      (∀ x ∈ l1, x.1 ∉ env.copyFailSet) ∧
      mirrorStage env u b st cache
        = ((copyFold (extractedPre u b) (chatsPre u b) st l1, cache,
            Ev.markerCheck true :: l1.map
              (fun x => Ev.copied x.1
                (copyDst (extractedPre u b) (chatsPre u b) x.1))), true) := by
  have hne : listBlobs st (extractedPre u b) ≠ [] :=
    listBlobs_ne_nil_of_marker hm
  have hempty : (listBlobs st (extractedPre u b)).isEmpty = false := by
    rw [List.isEmpty_eq_false]
    exact hne
  rcases copyBlobs_error_of_fail (extractedPre u b) (chatsPre u b)
      env.copyFailSet env.chunks (listBlobs st (extractedPre u b)) st 0 hfail
    with ⟨l1, nb, l2, hsplit, hnb, hl1, heq⟩
  refine ⟨l1, ?_, hl1, ?_⟩
  · intro x hx
    rw [hsplit]
    exact List.mem_append.mpr (Or.inl hx)
  · simp only [mirrorStage, hm, if_true, hempty, Bool.false_eq_true, if_false,
      heq]

/-! ### Router lemmas -/

theorem router_cond_eq_false_iff (p : String) :
    ((!(pyStartsWith p "user/") || (pySplit p '/').length < 4
      || (pySplit p '/').getD 2 "" != "uploads"
      || !(pyEndsWith (pyLower p) ".zip")) = false) ↔ eligibleKey p := by
  simp only [eligibleKey, Bool.or_eq_false_iff, Bool.not_eq_false',
    bne_eq_false_iff_eq, decide_eq_false_iff_not, Nat.not_lt]
  tauto

theorem pathRouter_eligible_of {p : String} (h : eligibleKey p) :
    pathRouter p
      = .eligible ((pySplit p '/').getD 1 "") ((pySplit p '/').getLastD "")
          (splitext ((pySplit p '/').getLastD "")).1 := by
  have hc := (router_cond_eq_false_iff p).mpr h
  have h3 := h.2.2.1
  have hd : ((("uploads" : String) == "extracted")
      || (("uploads" : String) == "chats")) = false := by decide
  simp only [pathRouter, hc, Bool.false_eq_true, if_false]
  simp only [h3, hd, Bool.false_eq_true, if_false]

theorem pathRouter_skip_of_not {p : String} (h : ¬ eligibleKey p) :
    pathRouter p = .skip := by
  rcases hcond : (!(pyStartsWith p "user/") || (pySplit p '/').length < 4
      || (pySplit p '/').getD 2 "" != "uploads"
      || !(pyEndsWith (pyLower p) ".zip")) with hf | ht
  · exact absurd ((router_cond_eq_false_iff p).mp hcond) h
  · simp only [pathRouter, hcond]
    rfl

theorem pathRouter_eligible_elim {p u f b : String}
    (h : pathRouter p = .eligible u f b) :
    eligibleKey p ∧ u = (pySplit p '/').getD 1 ""
      ∧ f = (pySplit p '/').getLastD ""
      ∧ b = (splitext ((pySplit p '/').getLastD "")).1 := by
  by_cases hel : eligibleKey p
  · have he := pathRouter_eligible_of hel
    rw [h] at he
    cases he
    exact ⟨hel, rfl, rfl, rfl⟩
  · rw [pathRouter_skip_of_not hel] at h
    cases h

/-! ### Run-level lemmas -/

theorem extract_zip_skip (env : Env) (w : World) (p : String)
    (hr : pathRouter p = .skip) : extract_zip env w p = (w, .skipped, []) := by
  simp [extract_zip, hr]

theorem extract_zip_run (env : Env) (w : World) (p u f b : String)
    (entries : List (String × List Nat))
    (hr : pathRouter p = .eligible u f b) (hd : env.downloadOk = true)
    (hz : env.zipResult = .ok entries) :
    extract_zip env w p
      = publishAndMirror env w u f b
          (tempDirFiles f (((mapGet w.store p).map Blob.content).getD [])
            entries) := by
  simp [extract_zip, hr, hd, hz]

theorem extract_zip_badZip (env : Env) (w : World) (p u f b : String)
    (hr : pathRouter p = .eligible u f b) (hd : env.downloadOk = true)
    (hz : env.zipResult = .badZip) :
    extract_zip env w p = (w, .badZip, []) := by
  simp [extract_zip, hr, hd, hz]

theorem extract_zip_extractError (env : Env) (w : World) (p u f b : String)
    (hr : pathRouter p = .eligible u f b) (hd : env.downloadOk = true)
    (hz : env.zipResult = .extractError) :
    extract_zip env w p = (w, .extractError, []) := by
  simp [extract_zip, hr, hd, hz]

theorem extract_zip_downloadFailed (env : Env) (w : World) (p u f b : String)
    (hr : pathRouter p = .eligible u f b) (hd : env.downloadOk = false) :
    extract_zip env w p = (w, .downloadFailed, []) := by
  simp [extract_zip, hr, hd]

theorem publishAndMirror_store (env : Env) (w : World) (u f b : String)
    (files : List (String × List Nat)) :
    (publishAndMirror env w u f b files).1.store
      = (mirrorStage env u b
          (publishFiles u f b env.uploadFailSet w.store 0 files).1
          w.cache).1.1 := by
  by_cases h : (mirrorStage env u b
      (publishFiles u f b env.uploadFailSet w.store 0 files).1 w.cache).2 = true
  · simp [publishAndMirror, h]
  · simp only [Bool.not_eq_true] at h
    simp [publishAndMirror, h]

theorem publishAndMirror_cache (env : Env) (w : World) (u f b : String)
    (files : List (String × List Nat)) :
    (publishAndMirror env w u f b files).1.cache
      = (mirrorStage env u b
          (publishFiles u f b env.uploadFailSet w.store 0 files).1
          w.cache).1.2.1 := by
  by_cases h : (mirrorStage env u b
      (publishFiles u f b env.uploadFailSet w.store 0 files).1 w.cache).2 = true
  · simp [publishAndMirror, h]
  · simp only [Bool.not_eq_true] at h
    simp [publishAndMirror, h]

theorem publishAndMirror_trace (env : Env) (w : World) (u f b : String)
    (files : List (String × List Nat)) :
    (publishAndMirror env w u f b files).2.2
      = (publishFiles u f b env.uploadFailSet w.store 0 files).2.2
        ++ (mirrorStage env u b
          (publishFiles u f b env.uploadFailSet w.store 0 files).1
          w.cache).1.2.2 := by
  by_cases h : (mirrorStage env u b
      (publishFiles u f b env.uploadFailSet w.store 0 files).1 w.cache).2 = true
  · simp [publishAndMirror, h]
  · simp only [Bool.not_eq_true] at h
    simp [publishAndMirror, h]

theorem publishAndMirror_result (env : Env) (w : World) (u f b : String)
    (files : List (String × List Nat)) :
    (publishAndMirror env w u f b files).2.1
      = (if (mirrorStage env u b
            (publishFiles u f b env.uploadFailSet w.store 0 files).1
            w.cache).2
         then RunResult.copyError
         else RunResult.done
           (publishFiles u f b env.uploadFailSet w.store 0 files).2.1) := by
  by_cases h : (mirrorStage env u b
      (publishFiles u f b env.uploadFailSet w.store 0 files).1 w.cache).2 = true
  · simp [publishAndMirror, h]
  · simp only [Bool.not_eq_true] at h
    simp [publishAndMirror, h]

/-! ### Mirror-stage preservation and trace-shape lemmas -/

/-- The events inside a copy run, successful or aborted. -/
def copyResEvs : Except (Store × List Ev) (Store × Nat × List Ev) → List Ev
  | .ok (_, _, evs) => evs
  | .error (_, evs) => evs

theorem copyResEvs_are_copied (sp dp : String) (fs : List String)
    (ch : List (String × Nat)) :
    ∀ (l : List (String × Blob)) (st : Store) (n : Nat),
      ∀ e ∈ copyResEvs (copyBlobs sp dp fs ch st n l),
        ∃ s d, e = Ev.copied s d := by
  intro l
  induction l with
  | nil =>
    intro st n e he
    simp [copyBlobs, copyResEvs] at he
  | cons nb rest ih =>
    intro st n e he
    obtain ⟨name, blob⟩ := nb
    by_cases hn : name ∈ fs
    · simp [copyBlobs, hn, copyResEvs] at he
    · simp only [copyBlobs, if_neg hn, rewriteBlob_eq] at he
      rcases hres : copyBlobs sp dp fs ch
          (mapPut st (dp ++ pySlice name (pyLen sp)) blob) (n + 1) rest
        with r | r
      · obtain ⟨st3, evs⟩ := r
        rw [hres] at he
        simp only [copyResEvs, List.mem_cons] at he
        rcases he with he | he
        · exact ⟨name, dp ++ pySlice name (pyLen sp), he⟩
        · have := ih (mapPut st (dp ++ pySlice name (pyLen sp)) blob) (n + 1) e
          rw [hres] at this
          exact this he
      · obtain ⟨st3, n3, evs⟩ := r
        rw [hres] at he
        simp only [copyResEvs, List.mem_cons] at he
        rcases he with he | he
        · exact ⟨name, dp ++ pySlice name (pyLen sp), he⟩
        · have := ih (mapPut st (dp ++ pySlice name (pyLen sp)) blob) (n + 1) e
          rw [hres] at this
          exact this he

theorem mirrorStage_store_not_under_chats (env : Env) (u b : String)
    (st : Store) (cache : Cache) (k : String)
    (hk : underPre (chatsPre u b) k = false) :
    mapGet (mirrorStage env u b st cache).1.1 k = mapGet st k := by
  by_cases hm : existsBlob st (markerKey u b) = true
  · by_cases hempty : (listBlobs st (extractedPre u b)).isEmpty = true
    · simp [mirrorStage, hm, hempty]
    · simp only [Bool.not_eq_true] at hempty
      have hres := copyBlobs_resStore_get_not_under (extractedPre u b)
        (chatsPre u b) env.copyFailSet env.chunks
        (listBlobs st (extractedPre u b)) st 0 k hk
      rcases hc : copyBlobs (extractedPre u b) (chatsPre u b) env.copyFailSet
          env.chunks st 0 (listBlobs st (extractedPre u b)) with r | r
      · obtain ⟨st2, evs⟩ := r
        rw [hc] at hres
        simp only [copyResStore] at hres
        simp [mirrorStage, hm, hempty, hc, hres]
      · obtain ⟨st2, n2, evs⟩ := r
        rw [hc] at hres
        simp only [copyResStore] at hres
        simp [mirrorStage, hm, hempty, hc, hres]
  · simp only [Bool.not_eq_true] at hm
    simp [mirrorStage, hm]

theorem mirrorStage_trace_not_uploaded (env : Env) (u b : String)
    (st : Store) (cache : Cache) :
    ∀ e ∈ (mirrorStage env u b st cache).1.2.2, Ev.isUploaded e = false := by
  intro e he
  by_cases hm : existsBlob st (markerKey u b) = true
  · by_cases hempty : (listBlobs st (extractedPre u b)).isEmpty = true
    · simp [mirrorStage, hm, hempty] at he
      rw [he]
      rfl
    · simp only [Bool.not_eq_true] at hempty
      have hevs := copyResEvs_are_copied (extractedPre u b) (chatsPre u b)
        env.copyFailSet env.chunks (listBlobs st (extractedPre u b)) st 0
      rcases hc : copyBlobs (extractedPre u b) (chatsPre u b) env.copyFailSet
          env.chunks st 0 (listBlobs st (extractedPre u b)) with r | r
      · obtain ⟨st2, evs⟩ := r
        rw [hc] at hevs
        simp only [copyResEvs] at hevs
        simp only [mirrorStage, hm, if_true, hempty, Bool.false_eq_true,
          if_false, hc, List.mem_cons] at he
        rcases he with he | he
        · rw [he]
          rfl
        · rcases hevs e he with ⟨s, d, he2⟩
          rw [he2]
          rfl
      · obtain ⟨st2, n2, evs⟩ := r
        rw [hc] at hevs
        simp only [copyResEvs] at hevs
        simp only [mirrorStage, hm, if_true, hempty, Bool.false_eq_true,
          if_false, hc, List.mem_cons, List.mem_append] at he
        rcases he with (he | he) | he
        · rw [he]
          rfl
        · rcases hevs e he with ⟨s, d, he2⟩
          rw [he2]
          rfl
        · rcases he with he | he
          · rw [he]
            rfl
          · simp at he
  · simp only [Bool.not_eq_true] at hm
    simp [mirrorStage, hm] at he
    rw [he]
    rfl

/-! ### splitOn lemmas: pieces are separator-free, and splitting an
explicitly decomposed key -/

theorem splitOnP_sep_free {α : Type} (p : α → Bool) :
    ∀ (xs : List α), ∀ l ∈ xs.splitOnP p, ∀ a ∈ l, ¬ p a = true := by
  intro xs
  induction xs with
  | nil =>
    intro l hl a ha
    simp only [List.splitOnP_nil, List.mem_singleton] at hl
    subst hl
    simp at ha
  | cons x xs ih =>
    intro l hl a ha
    rw [List.splitOnP_cons] at hl
    by_cases hx : p x = true
    · rw [if_pos hx] at hl
      rcases List.mem_cons.mp hl with h | h
      · subst h
        simp at ha
      · exact ih l h a ha
    · rw [if_neg hx] at hl
      rcases hsp : xs.splitOnP p with _ | ⟨hd, tl⟩
      · exact absurd hsp (List.splitOnP_ne_nil p xs)
      · rw [hsp] at hl
        simp only [List.modifyHead, List.mem_cons] at hl
        rcases hl with h | h
        · subst h
          rcases List.mem_cons.mp ha with h2 | h2
          · subst h2
            exact hx
          · exact ih hd (by rw [hsp]; exact List.mem_cons_self _ _) a h2
        · exact ih l (by rw [hsp]; exact List.mem_cons_of_mem _ h) a ha

theorem splitOn_sep_free (xs : List Char) (c : Char) :
    ∀ l ∈ xs.splitOn c, c ∉ l := by
  intro l hl hc
  have := splitOnP_sep_free (· == c) xs l hl c hc
  simp at this

theorem splitOn_append_sep (s t : List Char) (c : Char) (h : c ∉ s) :
    (s ++ c :: t).splitOn c = s :: t.splitOn c := by
  unfold List.splitOn
  refine List.splitOnP_first (fun a => a == c) s ?_ c (by simp) t
  intro x hx hbeq
  rw [eq_of_beq hbeq] at hx
  exact h hx

theorem splitOn_cons_head {d c : Char} (h : (d == c) = false) (R : List Char) :
    ∃ r0 rs, (d :: R).splitOn c = (d :: r0) :: rs ∧ R.splitOn c = r0 :: rs := by
  rcases hsp : R.splitOn c with _ | ⟨r0, rs⟩
  · exact absurd hsp (List.splitOnP_ne_nil _ R)
  · refine ⟨r0, rs, ?_, rfl⟩
    unfold List.splitOn at hsp ⊢
    rw [List.splitOnP_cons, if_neg (by simp [h]), hsp]
    rfl

theorem pySplit_getD_data (p : String) (i : Nat) :
    ((pySplit p '/').getD i "").data = (p.data.splitOn '/').getD i [] := by
  unfold pySplit
  rcases h : (p.data.splitOn '/')[i]? with _ | l
  · rw [List.getD, List.getD]
    simp [h]
  · rw [List.getD, List.getD]
    simp [h]

/-- For an eligible key, no extension of `user/{uid}/` by a character other
than `u` is a prefix of the key: segment 2 would then not be `uploads`. -/
theorem eligible_not_prefixed (p : String) (hel : eligibleKey p) (c : Char)
    (hc1 : (c == '/') = false) (hc2 : c ≠ 'u') (T : List Char)
    (hp : ("user/" ++ ((pySplit p '/').getD 1 "") ++ "/").data ++ c :: T
      <+: p.data) : False := by
  obtain ⟨h1, hlen, h3, h4⟩ := hel
  rcases hp with ⟨R, hR⟩
  have hudata : ((pySplit p '/').getD 1 "").data
      = (p.data.splitOn '/').getD 1 [] := pySplit_getD_data p 1
  have hlen' : 1 < (p.data.splitOn '/').length := by
    have : (pySplit p '/').length = (p.data.splitOn '/').length := by
      simp [pySplit]
    omega
  have humem : (p.data.splitOn '/').getD 1 [] ∈ p.data.splitOn '/' := by
    rw [List.getD_eq_getElem?_getD, List.getElem?_eq_getElem hlen']
    exact List.getElem_mem _
  have hufree : '/' ∉ ((pySplit p '/').getD 1 "").data := by
    rw [hudata]
    exact splitOn_sep_free _ _ _ humem
  have hdecomp : p.data
      = "user".data ++ '/' :: (((pySplit p '/').getD 1 "").data
          ++ '/' :: (c :: T ++ R)) := by
    rw [← hR]
    simp [String.data_append]
  have husf : '/' ∉ ("user" : String).data := by decide
  have hsplit1 : p.data.splitOn '/'
      = "user".data :: ((((pySplit p '/').getD 1 "").data
          ++ '/' :: (c :: T ++ R)).splitOn '/') := by
    rw [hdecomp]
    exact splitOn_append_sep _ _ _ husf
  have hsplit2 : (((pySplit p '/').getD 1 "").data
        ++ '/' :: (c :: T ++ R)).splitOn '/'
      = ((pySplit p '/').getD 1 "").data :: ((c :: T ++ R).splitOn '/') := by
    exact splitOn_append_sep _ _ _ hufree
  rcases splitOn_cons_head hc1 (T ++ R) with ⟨r0, rs, hhead, _⟩
  have hseg2 : (p.data.splitOn '/').getD 2 [] = c :: r0 := by
    rw [hsplit1, hsplit2]
    simp only [List.getD_cons_succ]
    rw [show (c :: T ++ R) = c :: (T ++ R) from rfl] at *
    rw [hhead]
    rfl
  have h3data : ((pySplit p '/').getD 2 "").data = ("uploads" : String).data :=
    congrArg String.data h3
  rw [pySplit_getD_data p 2, hseg2] at h3data
  have : c = 'u' := by
    have := List.head_eq_of_cons_eq h3data
    exact this
  exact hc2 this

/-- An eligible key is neither an extracted-tree key nor under the chats or
extracted prefixes of its own user: its third segment is `uploads`. -/
theorem eligible_key_disjoint (p : String) (hel : eligibleKey p) (bb x : String) :
    p ≠ extractedPre ((pySplit p '/').getD 1 "") bb ++ x
    ∧ underPre (chatsPre ((pySplit p '/').getD 1 "") bb) p = false
    ∧ underPre (extractedPre ((pySplit p '/').getD 1 "") bb) p = false := by
  refine ⟨?_, ?_, ?_⟩
  · intro he
    refine eligible_not_prefixed p hel 'e' (by decide) (by decide)
      ("xtracted/" ++ bb ++ "/" ++ x).data ?_
    rw [← shape_extracted]
    rw [← he]
  · refine Bool.eq_false_iff.mpr ?_
    intro hu
    have hp := underPre_iff.mp hu
    rw [shape_chats_bare] at hp
    exact eligible_not_prefixed p hel 'c' (by decide) (by decide) _ hp
  · refine Bool.eq_false_iff.mpr ?_
    intro hu
    have hp := underPre_iff.mp hu
    rw [shape_extracted_bare] at hp
    exact eligible_not_prefixed p hel 'e' (by decide) (by decide) _ hp

/-! ### copyFold fixpoint and enumeration lemmas -/

theorem copyFold_fix (sp dp : String) :
    ∀ (l : List (String × Blob)) (st : Store),
      (∀ nb ∈ l, mapGet st (copyDst sp dp nb.1) = some nb.2) →
      copyFold sp dp st l = st := by
  intro l
  induction l with
  | nil =>
    intro st _
    rfl
  | cons nb rest ih =>
    intro st h
    have hput : mapPut st (copyDst sp dp nb.1) nb.2 = st :=
      mapPut_eq_of_mapGet (h nb (List.mem_cons_self _ _))
    show copyFold sp dp (mapPut st (copyDst sp dp nb.1) nb.2) rest = st
    rw [hput]
    exact ih st (fun x hx => h x (List.mem_cons_of_mem _ hx))

theorem copyFold_listBlobs (sp dp sp2 : String)
    (hdisj : ∀ r : String, underPre sp2 (dp ++ r) = false) :
    ∀ (l : List (String × Blob)) (st : Store),
      listBlobs (copyFold sp dp st l) sp2 = listBlobs st sp2 := by
  intro l
  induction l with
  | nil =>
    intro st
    rfl
  | cons nb rest ih =>
    intro st
    show listBlobs (copyFold sp dp (mapPut st (copyDst sp dp nb.1) nb.2) rest)
        sp2 = listBlobs st sp2
    rw [ih]
    exact listBlobs_mapPut_of_not_under _ (hdisj _)

/-! ### Scratch-directory lemmas -/

theorem mem_tempDirFiles {f : String} {zc : List Nat}
    {entries : List (String × List Nat)} {rel : String} {c : List Nat}
    (h : (rel, c) ∈ entries) : (rel, c) ∈ tempDirFiles f zc entries := by
  unfold tempDirFiles
  by_cases hany : entries.any (fun e => e.1 == f) = true
  · rw [if_pos hany]
    exact h
  · rw [if_neg hany]
    exact List.mem_cons_of_mem _ h

theorem nodup_tempDirFiles {f : String} {zc : List Nat}
    {entries : List (String × List Nat)}
    (h : (entries.map Prod.fst).Nodup) :
    ((tempDirFiles f zc entries).map Prod.fst).Nodup := by
  unfold tempDirFiles
  by_cases hany : entries.any (fun e => e.1 == f) = true
  · rw [if_pos hany]
    exact h
  · rw [if_neg hany]
    simp only [List.map_cons, List.nodup_cons]
    refine ⟨?_, h⟩
    intro hmem
    rcases List.mem_map.mp hmem with ⟨e, he, hfe⟩
    have : entries.any (fun e => e.1 == f) = true :=
      List.any_eq_true.mpr ⟨e, he, by simp [hfe]⟩
    exact hany this

/-! ### Event-shape lemmas -/

theorem publishFiles_ev_shapes (u f b : String) (fails : List String) :
    ∀ (files : List (String × List Nat)) (st : Store) (n : Nat),
      ∀ e ∈ (publishFiles u f b fails st n files).2.2,
        ∃ rel, (∃ c, (rel, c) ∈ files)
          ∧ ((pySplit rel '/').getLastD "" == f) = false
          ∧ (e = Ev.uploaded (pubDst u b rel)
            ∨ e = Ev.uploadFailed (pubDst u b rel)) := by
  intro files
  induction files with
  | nil =>
    intro st n e he
    simp [publishFiles] at he
  | cons rc rest ih =>
    intro st n e he
    obtain ⟨rel0, c0⟩ := rc
    by_cases hskip : (((pySplit rel0 '/').getLastD "" == f) = true)
    · simp only [publishFiles, if_pos hskip] at he
      rcases ih st n e he with ⟨rel, ⟨c, hc⟩, hsk, hor⟩
      exact ⟨rel, ⟨c, List.mem_cons_of_mem _ hc⟩, hsk, hor⟩
    · by_cases hfail :
        ("user/" ++ u ++ "/extracted/" ++ b ++ "/" ++ rel0) ∈ fails
      · simp only [publishFiles, if_neg hskip, if_pos hfail,
          List.mem_cons] at he
        rcases he with he | he
        · exact ⟨rel0, ⟨c0, List.mem_cons_self _ _⟩,
            Bool.eq_false_iff.mpr hskip, Or.inr he⟩
        · rcases ih st n e he with ⟨rel, ⟨c, hc⟩, hsk, hor⟩
          exact ⟨rel, ⟨c, List.mem_cons_of_mem _ hc⟩, hsk, hor⟩
      · simp only [publishFiles, if_neg hskip, if_neg hfail,
          List.mem_cons] at he
        rcases he with he | he
        · exact ⟨rel0, ⟨c0, List.mem_cons_self _ _⟩,
            Bool.eq_false_iff.mpr hskip, Or.inl he⟩
        · rcases ih _ _ e he with ⟨rel, ⟨c, hc⟩, hsk, hor⟩
          exact ⟨rel, ⟨c, List.mem_cons_of_mem _ hc⟩, hsk, hor⟩

theorem mirrorStage_trace_shapes (env : Env) (u b : String) (st : Store)
    (cache : Cache) :
    ∀ e ∈ (mirrorStage env u b st cache).1.2.2,
      (∃ pr, e = Ev.markerCheck pr) ∨ (∃ s d, e = Ev.copied s d)
        ∨ (∃ u2 b2 t, e = Ev.cacheWrite u2 b2 t) := by
  intro e he
  by_cases hm : existsBlob st (markerKey u b) = true
  · by_cases hempty : (listBlobs st (extractedPre u b)).isEmpty = true
    · simp [mirrorStage, hm, hempty] at he
      exact Or.inl ⟨true, he⟩
    · simp only [Bool.not_eq_true] at hempty
      have hevs := copyResEvs_are_copied (extractedPre u b) (chatsPre u b)
        env.copyFailSet env.chunks (listBlobs st (extractedPre u b)) st 0
      rcases hc : copyBlobs (extractedPre u b) (chatsPre u b) env.copyFailSet
          env.chunks st 0 (listBlobs st (extractedPre u b)) with r | r
      · obtain ⟨st2, evs⟩ := r
        rw [hc] at hevs
        simp only [copyResEvs] at hevs
        simp only [mirrorStage, hm, if_true, hempty, Bool.false_eq_true,
          if_false, hc, List.mem_cons] at he
        rcases he with he | he
        · exact Or.inl ⟨true, he⟩
        · exact Or.inr (Or.inl (hevs e he))
      · obtain ⟨st2, n2, evs⟩ := r
        rw [hc] at hevs
        simp only [copyResEvs] at hevs
        simp only [mirrorStage, hm, if_true, hempty, Bool.false_eq_true,
          if_false, hc, List.mem_cons, List.mem_append] at he
        rcases he with (he | he) | he
        · exact Or.inl ⟨true, he⟩
        · exact Or.inr (Or.inl (hevs e he))
        · rcases he with he | he
          · exact Or.inr (Or.inr ⟨u, b, env.now, he⟩)
          · simp at he
  · simp only [Bool.not_eq_true] at hm
    simp [mirrorStage, hm] at he
    exact Or.inl ⟨false, he⟩

theorem mirrorStage_trace_head (env : Env) (u b : String) (st : Store)
    (cache : Cache) :
    ∃ t, (mirrorStage env u b st cache).1.2.2
      = Ev.markerCheck (existsBlob st (markerKey u b)) :: t := by
  by_cases hm : existsBlob st (markerKey u b) = true
  · rw [hm]
    by_cases hempty : (listBlobs st (extractedPre u b)).isEmpty = true
    · refine ⟨[], ?_⟩
      simp [mirrorStage, hm, hempty]
    · simp only [Bool.not_eq_true] at hempty
      rcases hc : copyBlobs (extractedPre u b) (chatsPre u b) env.copyFailSet
          env.chunks st 0 (listBlobs st (extractedPre u b)) with r | r
      · obtain ⟨st2, evs⟩ := r
        refine ⟨evs, ?_⟩
        simp [mirrorStage, hm, hempty, hc]
      · obtain ⟨st2, n2, evs⟩ := r
        refine ⟨evs ++ [Ev.cacheWrite u b env.now], ?_⟩
        simp [mirrorStage, hm, hempty, hc]
  · simp only [Bool.not_eq_true] at hm
    rw [hm]
    refine ⟨[], ?_⟩
    simp [mirrorStage, hm]

/-! ### Claim theorems -/

/-- C2: the pipeline proceeds past routing if and only if the key starts
with `user/`, has at least 4 slash-separated segments, segment 2 equals
`uploads`, and the key ends case-insensitively in `.zip`; for every key
failing any of these conditions the run is a skip that leaves the world
unchanged and performs no download, publish, marker check, copy or cache
write (empty event trace). -/
theorem claim2_routing_gate (env : Env) (w : World) (p : String) :
    extract_zip env w p = (w, RunResult.skipped, []) ↔ ¬ eligibleKey p := by
  constructor
  · intro h hel
    have hr := pathRouter_eligible_of hel
    have hres : (extract_zip env w p).2.1 = RunResult.skipped := by
      rw [h]
    cases hd : env.downloadOk with
    | false =>
      rw [extract_zip_downloadFailed env w p _ _ _ hr hd] at hres
      simp at hres
    | true =>
      cases hz : env.zipResult with
      | badZip =>
        rw [extract_zip_badZip env w p _ _ _ hr hd hz] at hres
        simp at hres
      | extractError =>
        rw [extract_zip_extractError env w p _ _ _ hr hd hz] at hres
        simp at hres
      | ok entries =>
        rw [extract_zip_run env w p _ _ _ entries hr hd hz] at hres
        rw [publishAndMirror_result] at hres
        split at hres
        · simp at hres
        · simp at hres
  · intro h
    exact extract_zip_skip env w p (pathRouter_skip_of_not h)

/-- C5: for every run in which the marker `_chat.txt` does not exist under
the extracted prefix after publishing, no object is written under the
`chats/` prefix (every chats-prefix key holds exactly what it held before
the run) and the completion cache is unchanged. -/
theorem claim5_marker_absent_no_mirror_no_cache (env : Env) (w : World)
    (p u f b : String) (entries : List (String × List Nat))
    (hr : pathRouter p = .eligible u f b) (hd : env.downloadOk = true)
    (hz : env.zipResult = .ok entries)
    (hm : existsBlob
        (publishFiles u f b env.uploadFailSet w.store 0
          (tempDirFiles f (((mapGet w.store p).map Blob.content).getD [])
            entries)).1
        (markerKey u b) = false) :
    (∀ k, underPre (chatsPre u b) k = true →
      mapGet (extract_zip env w p).1.store k = mapGet w.store k)
    ∧ (extract_zip env w p).1.cache = w.cache := by
  rw [extract_zip_run env w p u f b entries hr hd hz]
  constructor
  · intro k hk
    rw [publishAndMirror_store]
    rw [mirrorStage_absent env u b _ w.cache hm]
    show mapGet (publishFiles u f b env.uploadFailSet w.store 0
      (tempDirFiles f (((mapGet w.store p).map Blob.content).getD [])
        entries)).1 k = mapGet w.store k
    refine publishFiles_get_other u f b env.uploadFailSet _ w.store 0 k ?_
    intro rc hrc he
    have hkeq := eq_append_of_underPre hk
    rw [pubDst_eq] at he
    rw [hkeq] at he
    exact chats_key_ne_extracted_key u b b _ rc.1 he
  · rw [publishAndMirror_cache]
    rw [mirrorStage_absent env u b _ w.cache hm]

/-- C7: for an eligible key whose downloaded bytes are not a valid archive
(`zipfile.BadZipFile`), the run ends terminally with the world unchanged
and an empty event trace — no objects published, none mirrored, no cache
record; any other decode failure is likewise terminal with the same
absence of side effects. -/
theorem claim7_corrupt_archive_terminal (env : Env) (w : World)
    (p u f b : String) (hr : pathRouter p = .eligible u f b)
    (hd : env.downloadOk = true) :
    (env.zipResult = ZipResult.badZip →
      extract_zip env w p = (w, RunResult.badZip, []))
    ∧ (env.zipResult = ZipResult.extractError →
      extract_zip env w p = (w, RunResult.extractError, [])) :=
  ⟨fun hz => extract_zip_badZip env w p u f b hr hd hz,
   fun hz => extract_zip_extractError env w p u f b hr hd hz⟩

/-- C9: the chunked copy re-invokes `rewrite` with the returned
continuation token until the token is absent: for a backend that requires
`remaining` continuation rounds the loop terminates after exactly
`remaining + 1` calls with the destination holding the source blob
(content and metadata), and the copier then counts the object as copied
and proceeds (a one-object copy returns the destination store, an
incremented count and that object's copied event). -/
theorem claim9_chunked_copy_loop (st : Store) (dstKey : String) (src : Blob)
    (remaining : Nat) :
    rewriteBlob st dstKey src remaining
      = (mapPut st dstKey src, remaining + 1)
    ∧ ∀ (sp dp : String) (ch : List (String × Nat)) (st2 : Store) (n : Nat)
        (name : String) (blob : Blob),
        copyBlobs sp dp [] ch st2 n [(name, blob)]
          = .ok (mapPut st2 (copyDst sp dp name) blob, n + 1,
              [Ev.copied name (copyDst sp dp name)]) := by
  constructor
  · exact rewriteBlob_eq st dstKey src remaining
  · intro sp dp ch st2 n name blob
    have h := copyBlobs_ok_of_no_fail sp dp [] ch [(name, blob)] st2 n
      (by simp)
    rw [h]
    simp [copyFold]

/-- C10: the loop-prevention branch re-checking segment 2 against
`extracted` and `chats` is unreachable: the router equals the router with
that branch removed on every input, and for every key whose segment 2 is
`uploads` (required by the earlier eligibility condition) the branch
condition is false. -/
theorem claim10_defensive_branch_noop :
    (∀ p : String, pathRouter p = pathRouterNoDefense p)
    ∧ ∀ p : String, (pySplit p '/').getD 2 "" = "uploads" →
        ¬ ((pySplit p '/').getD 2 "" = "extracted"
          ∨ (pySplit p '/').getD 2 "" = "chats") := by
  constructor
  · intro p
    by_cases h : eligibleKey p
    · rw [pathRouter_eligible_of h]
      have hc := (router_cond_eq_false_iff p).mpr h
      simp only [pathRouterNoDefense, hc, Bool.false_eq_true, if_false]
    · rw [pathRouter_skip_of_not h]
      rcases hcond : (!(pyStartsWith p "user/") || (pySplit p '/').length < 4
          || (pySplit p '/').getD 2 "" != "uploads"
          || !(pyEndsWith (pyLower p) ".zip"))
      · exact absurd ((router_cond_eq_false_iff p).mp hcond) h
      · simp only [pathRouterNoDefense, hcond]
        rfl
  · intro p h hor
    rcases hor with h2 | h2
    · rw [h] at h2
      exact absurd h2 (by decide)
    · rw [h] at h2
      exact absurd h2 (by decide)

/-- C1: whenever the marker `_chat.txt` exists under the extracted prefix
of the post-publish store (the store `extract_zip` hands to the mirror
stage) and no copy faults are injected, the stage copies every object
enumerated under the extracted prefix to the chats prefix at the same
relative path with the whole blob (content and metadata) preserved, writes
exactly one completion-cache record at `(u, b)` carrying the server
timestamp, and every copied event precedes the single cache-write event in
the trace. -/
theorem claim1_marker_present_mirror_then_cache (env : Env) (u b : String)
    (st : Store) (cache : Cache) (hnd : (st.map Prod.fst).Nodup)
    (hm : existsBlob st (markerKey u b) = true)
    (hcf : env.copyFailSet = []) :
    (mirrorStage env u b st cache).2 = false
    ∧ (∀ name blob, (name, blob) ∈ listBlobs st (extractedPre u b) →
        mapGet (mirrorStage env u b st cache).1.1
          (copyDst (extractedPre u b) (chatsPre u b) name) = some blob)
    ∧ mapGet (mirrorStage env u b st cache).1.2.1 (u, b) = some env.now
    ∧ (∀ key, key ≠ (u, b) →
        mapGet (mirrorStage env u b st cache).1.2.1 key = mapGet cache key)
    ∧ (∃ pre, (mirrorStage env u b st cache).1.2.2
          = pre ++ [Ev.cacheWrite u b env.now]
        ∧ (∀ e ∈ pre, e.isCacheWrite = false)
        ∧ ∀ name blob, (name, blob) ∈ listBlobs st (extractedPre u b) →
            Ev.copied name (copyDst (extractedPre u b) (chatsPre u b) name)
              ∈ pre) := by
  rw [mirrorStage_present_ok env u b st cache hm hcf]
  refine ⟨rfl, ?_, ?_, ?_, ?_⟩
  · intro name blob hmem
    refine copyFold_get_mem _ _ _ st (nodup_names_listBlobs _ hnd) ?_
      name blob hmem
    intro nb hnb
    obtain ⟨nm, bl⟩ := nb
    exact (mem_listBlobs.mp hnb).2
  · exact mapGet_mapPut_self _ _ _
  · intro key hkey
    exact mapGet_mapPut_ne _ _ _ hkey
  · refine ⟨Ev.markerCheck true :: (listBlobs st (extractedPre u b)).map
        (fun nb => Ev.copied nb.1
          (copyDst (extractedPre u b) (chatsPre u b) nb.1)), rfl, ?_, ?_⟩
    · intro e he
      rcases List.mem_cons.mp he with he | he
      · rw [he]
        rfl
      · rcases List.mem_map.mp he with ⟨nb, _, hnb⟩
        rw [← hnb]
        rfl
    · intro name blob hmem
      exact List.mem_cons_of_mem _ (List.mem_map.mpr ⟨(name, blob), hmem, rfl⟩)

/-- C6: if the marker is present and the copy of some enumerated object
raises (a copy-fault is injected for it), the error propagates out of the
run, the remaining copy loop is aborted (the failing object is never
copied), no cache record is written (cache unchanged, no cache-write
event), and the already-published files under the extracted prefix are not
rolled back. -/
theorem claim6_cache_only_after_full_copy (env : Env) (u b : String)
    (st : Store) (cache : Cache)
    (hm : existsBlob st (markerKey u b) = true)
    (hfail : ∃ nb ∈ listBlobs st (extractedPre u b),
        nb.1 ∈ env.copyFailSet) :
    (mirrorStage env u b st cache).2 = true
    ∧ (mirrorStage env u b st cache).1.2.1 = cache
    ∧ (∀ e ∈ (mirrorStage env u b st cache).1.2.2, e.isCacheWrite = false)
    ∧ (∀ k, underPre (extractedPre u b) k = true →
        mapGet (mirrorStage env u b st cache).1.1 k = mapGet st k)
    ∧ (∃ nb ∈ listBlobs st (extractedPre u b), nb.1 ∈ env.copyFailSet ∧
        Ev.copied nb.1 (copyDst (extractedPre u b) (chatsPre u b) nb.1)
          ∉ (mirrorStage env u b st cache).1.2.2) := by
  rcases mirrorStage_present_err env u b st cache hm hfail with
    ⟨l1, hsub, hl1, heq⟩
  rw [heq]
  refine ⟨rfl, rfl, ?_, ?_, ?_⟩
  · intro e he
    rcases List.mem_cons.mp he with he | he
    · rw [he]
      rfl
    · rcases List.mem_map.mp he with ⟨x, _, hx⟩
      rw [← hx]
      rfl
  · intro k hk
    refine copyFold_get_other _ _ l1 st k ?_
    intro x hx he2
    have hkeq := eq_append_of_underPre hk
    rw [hkeq] at he2
    exact chats_key_ne_extracted_key u b b _ _ he2.symm
  · obtain ⟨nb, hnbmem, hnbf⟩ := hfail
    refine ⟨nb, hnbmem, hnbf, ?_⟩
    intro hmem
    rcases List.mem_cons.mp hmem with he | he
    · simp at he
    · rcases List.mem_map.mp he with ⟨x, hxl1, hx⟩
      injection hx with h1 h2
      rw [← h1] at hnbf
      exact hl1 x hxl1 hnbf

/-- C3: for a valid archive at an eligible key, `u`, `f` and `b` are
segment 1, the final segment, and the final segment without its extension;
every extracted entry whose basename differs from the archive filename and
whose upload does not fault ends up, content unchanged, at
`user/{u}/extracted/{b}/{rel}` in the final store; and an entry whose
basename equals the archive filename is excluded — the run's trace has no
upload (or upload-failure) event for its destination. -/
theorem claim3_publish_destinations (env : Env) (w : World)
    (p u f b : String) (entries : List (String × List Nat))
    (hr : pathRouter p = .eligible u f b) (hd : env.downloadOk = true)
    (hz : env.zipResult = .ok entries)
    (hnd : (entries.map Prod.fst).Nodup) :
    (u = (pySplit p '/').getD 1 "" ∧ f = (pySplit p '/').getLastD ""
      ∧ b = (splitext f).1)
    ∧ (∀ rel c, (rel, c) ∈ entries →
        ((pySplit rel '/').getLastD "" == f) = false →
        pubDst u b rel ∉ env.uploadFailSet →
        mapGet (extract_zip env w p).1.store (pubDst u b rel)
          = some (uploadBlob c))
    ∧ (∀ rel c, (rel, c) ∈ entries →
        ((pySplit rel '/').getLastD "" == f) = true →
        Ev.uploaded (pubDst u b rel) ∉ (extract_zip env w p).2.2
        ∧ Ev.uploadFailed (pubDst u b rel) ∉ (extract_zip env w p).2.2) := by
  obtain ⟨hel, hu, hf, hb⟩ := pathRouter_eligible_elim hr
  refine ⟨⟨hu, hf, by rw [hb, hf]⟩, ?_, ?_⟩
  · intro rel c hmem hskip hfail
    rw [extract_zip_run env w p u f b entries hr hd hz]
    rw [publishAndMirror_store]
    have hk : underPre (chatsPre u b) (pubDst u b rel) = false := by
      rw [pubDst_eq]
      exact not_under_chats_extracted u b b rel
    rw [mirrorStage_store_not_under_chats env u b _ w.cache _ hk]
    exact publishFiles_get_mem u f b env.uploadFailSet _ w.store 0
      (nodup_tempDirFiles hnd) rel c (mem_tempDirFiles hmem) hskip hfail
  · intro rel c hmem hskip
    rw [extract_zip_run env w p u f b entries hr hd hz]
    rw [publishAndMirror_trace]
    constructor
    · intro habs
      rcases List.mem_append.mp habs with hin | hin
      · rcases publishFiles_ev_shapes u f b env.uploadFailSet _ w.store 0
            _ hin with ⟨rel', ⟨c', _⟩, hsk', hor⟩
        rcases hor with he | he
        · injection he with hdst
          have : rel = rel' := pubDst_inj hdst
          rw [← this] at hsk'
          rw [hskip] at hsk'
          cases hsk'
        · cases he
      · rcases mirrorStage_trace_shapes env u b _ w.cache _ hin with
          ⟨pr, he⟩ | ⟨s, d, he⟩ | ⟨u2, b2, t, he⟩
        · cases he
        · cases he
        · cases he
    · intro habs
      rcases List.mem_append.mp habs with hin | hin
      · rcases publishFiles_ev_shapes u f b env.uploadFailSet _ w.store 0
            _ hin with ⟨rel', ⟨c', _⟩, hsk', hor⟩
        rcases hor with he | he
        · cases he
        · injection he with hdst
          have : rel = rel' := pubDst_inj hdst
          rw [← this] at hsk'
          rw [hskip] at hsk'
          cases hsk'
      · rcases mirrorStage_trace_shapes env u b _ w.cache _ hin with
          ⟨pr, he⟩ | ⟨s, d, he⟩ | ⟨u2, b2, t, he⟩
        · cases he
        · cases he
        · cases he

/-- C4: per-file upload failures are isolated: under any injected set of
upload faults, every entry whose basename differs from the archive
filename and whose destination is not faulted is still published (its
content is in the final store and its upload event is in the trace);
publishing always proceeds to the marker check; and a `done` result
carries the aggregate success count, the number of successful-upload
events in the trace. -/
theorem claim4_partial_failure_isolation (env : Env) (w : World)
    (p u f b : String) (entries : List (String × List Nat))
    (hr : pathRouter p = .eligible u f b) (hd : env.downloadOk = true)
    (hz : env.zipResult = .ok entries)
    (hnd : (entries.map Prod.fst).Nodup) :
    (∀ rel c, (rel, c) ∈ entries →
        ((pySplit rel '/').getLastD "" == f) = false →
        pubDst u b rel ∉ env.uploadFailSet →
        mapGet (extract_zip env w p).1.store (pubDst u b rel)
            = some (uploadBlob c)
          ∧ Ev.uploaded (pubDst u b rel) ∈ (extract_zip env w p).2.2)
    ∧ (∃ present, Ev.markerCheck present ∈ (extract_zip env w p).2.2)
    ∧ (∀ n, (extract_zip env w p).2.1 = RunResult.done n →
        n = ((extract_zip env w p).2.2.filter Ev.isUploaded).length) := by
  refine ⟨?_, ?_, ?_⟩
  · intro rel c hmem hskip hfail
    constructor
    · rw [extract_zip_run env w p u f b entries hr hd hz]
      rw [publishAndMirror_store]
      have hk : underPre (chatsPre u b) (pubDst u b rel) = false := by
        rw [pubDst_eq]
        exact not_under_chats_extracted u b b rel
      rw [mirrorStage_store_not_under_chats env u b _ w.cache _ hk]
      exact publishFiles_get_mem u f b env.uploadFailSet _ w.store 0
        (nodup_tempDirFiles hnd) rel c (mem_tempDirFiles hmem) hskip hfail
    · rw [extract_zip_run env w p u f b entries hr hd hz]
      rw [publishAndMirror_trace]
      refine List.mem_append.mpr (Or.inl ?_)
      exact publishFiles_uploaded_ev u f b env.uploadFailSet _ w.store 0
        rel c (mem_tempDirFiles hmem) hskip hfail
  · rw [extract_zip_run env w p u f b entries hr hd hz]
    rw [publishAndMirror_trace]
    rcases mirrorStage_trace_head env u b
        (publishFiles u f b env.uploadFailSet w.store 0
          (tempDirFiles f (((mapGet w.store p).map Blob.content).getD [])
            entries)).1 w.cache with ⟨t, ht⟩
    refine ⟨existsBlob (publishFiles u f b env.uploadFailSet w.store 0
      (tempDirFiles f (((mapGet w.store p).map Blob.content).getD [])
        entries)).1 (markerKey u b), ?_⟩
    refine List.mem_append.mpr (Or.inr ?_)
    rw [ht]
    exact List.mem_cons_self _ _
  · intro n hn
    rw [extract_zip_run env w p u f b entries hr hd hz] at hn ⊢
    rw [publishAndMirror_result] at hn
    rw [publishAndMirror_trace]
    split at hn
    · cases hn
    · injection hn with hn2
      rw [List.filter_append]
      have hmir : ((mirrorStage env u b
          (publishFiles u f b env.uploadFailSet w.store 0
            (tempDirFiles f (((mapGet w.store p).map Blob.content).getD [])
              entries)).1 w.cache).1.2.2.filter Ev.isUploaded) = [] := by
        rw [List.filter_eq_nil_iff]
        intro e he
        rw [mirrorStage_trace_not_uploaded env u b _ w.cache e he]
        simp
      rw [hmir, List.append_nil]
      rw [← hn2]
      have := publishFiles_count u f b env.uploadFailSet
        (tempDirFiles f (((mapGet w.store p).map Blob.content).getD [])
          entries) w.store 0
      omega

/-! ### Rerun (idempotence) lemma at the publish-and-mirror level -/

theorem publishAndMirror_rerun (env env' : Env) (w : World) (u f b : String)
    (F : List (String × List Nat)) (hndF : (F.map Prod.fst).Nodup)
    (hup : env.uploadFailSet = []) (hcf : env.copyFailSet = [])
    (hcf' : env'.copyFailSet = [])
    (hwf : (w.store.map Prod.fst).Nodup) :
    (publishAndMirror env' (publishAndMirror env w u f b F).1 u f b F).1.store
      = (publishAndMirror env w u f b F).1.store
    ∧ (publishAndMirror env' (publishAndMirror env w u f b F).1 u f b F).1.cache
      = (if existsBlob (publishAndMirror env w u f b F).1.store (markerKey u b)
         then mapPut (publishAndMirror env w u f b F).1.cache (u, b) env'.now
         else (publishAndMirror env w u f b F).1.cache)
    ∧ ((publishAndMirror env' (publishAndMirror env w u f b F).1 u f b
          F).1.cache).map Prod.fst
      = ((publishAndMirror env w u f b F).1.cache).map Prod.fst := by
  have hndst1 : ((publishFiles u f b env.uploadFailSet w.store 0 F).1.map
      Prod.fst).Nodup := nodup_publishFiles u f b env.uploadFailSet F w.store 0 hwf
  have hw1store : (publishAndMirror env w u f b F).1.store
      = (mirrorStage env u b
          (publishFiles u f b env.uploadFailSet w.store 0 F).1 w.cache).1.1 :=
    publishAndMirror_store env w u f b F
  have hw1cache : (publishAndMirror env w u f b F).1.cache
      = (mirrorStage env u b
          (publishFiles u f b env.uploadFailSet w.store 0 F).1 w.cache).1.2.1 :=
    publishAndMirror_cache env w u f b F
  have hpres : ∀ k, underPre (chatsPre u b) k = false →
      mapGet (mirrorStage env u b
        (publishFiles u f b env.uploadFailSet w.store 0 F).1 w.cache).1.1 k
        = mapGet (publishFiles u f b env.uploadFailSet w.store 0 F).1 k :=
    fun k hk => mirrorStage_store_not_under_chats env u b _ w.cache k hk
  have hmkeyeq : markerKey u b = extractedPre u b ++ "_chat.txt" := by
    simp [markerKey, extractedPre, String.append_assoc]
  have hkm : underPre (chatsPre u b) (markerKey u b) = false := by
    rw [hmkeyeq]
    exact not_under_chats_extracted u b b _
  have hpubfix : (publishFiles u f b env'.uploadFailSet
      (publishAndMirror env w u f b F).1.store 0 F).1
      = (publishAndMirror env w u f b F).1.store := by
    refine publishFiles_fix u f b env'.uploadFailSet F _ 0 ?_
    intro rel c hmem hskip _
    have hkrel : underPre (chatsPre u b) (pubDst u b rel) = false := by
      rw [pubDst_eq]
      exact not_under_chats_extracted u b b rel
    rw [hw1store, hpres _ hkrel]
    refine publishFiles_get_mem u f b env.uploadFailSet F w.store 0 hndF
      rel c hmem hskip ?_
    rw [hup]
    simp
  have hr2store : (publishAndMirror env'
      (publishAndMirror env w u f b F).1 u f b F).1.store
      = (mirrorStage env' u b (publishAndMirror env w u f b F).1.store
          (publishAndMirror env w u f b F).1.cache).1.1 := by
    rw [publishAndMirror_store, hpubfix]
  have hr2cache : (publishAndMirror env'
      (publishAndMirror env w u f b F).1 u f b F).1.cache
      = (mirrorStage env' u b (publishAndMirror env w u f b F).1.store
          (publishAndMirror env w u f b F).1.cache).1.2.1 := by
    rw [publishAndMirror_cache, hpubfix]
  by_cases hm1 : existsBlob
      (publishFiles u f b env.uploadFailSet w.store 0 F).1 (markerKey u b) = true
  · have hM1eq := mirrorStage_present_ok env u b
      (publishFiles u f b env.uploadFailSet w.store 0 F).1 w.cache hm1 hcf
    have hw1store' : (publishAndMirror env w u f b F).1.store
        = copyFold (extractedPre u b) (chatsPre u b)
            (publishFiles u f b env.uploadFailSet w.store 0 F).1
            (listBlobs (publishFiles u f b env.uploadFailSet w.store 0 F).1
              (extractedPre u b)) := by
      rw [hw1store, hM1eq]
    have hw1cache' : (publishAndMirror env w u f b F).1.cache
        = mapPut w.cache (u, b) env.now := by
      rw [hw1cache, hM1eq]
    have hm2 : existsBlob (publishAndMirror env w u f b F).1.store
        (markerKey u b) = true := by
      show (mapGet (publishAndMirror env w u f b F).1.store
        (markerKey u b)).isSome = true
      rw [hw1store, hpres _ hkm]
      exact hm1
    have hM2eq := mirrorStage_present_ok env' u b
      (publishAndMirror env w u f b F).1.store
      (publishAndMirror env w u f b F).1.cache hm2 hcf'
    have hL2 : listBlobs (publishAndMirror env w u f b F).1.store
        (extractedPre u b)
        = listBlobs (publishFiles u f b env.uploadFailSet w.store 0 F).1
            (extractedPre u b) := by
      rw [hw1store']
      exact copyFold_listBlobs (extractedPre u b) (chatsPre u b)
        (extractedPre u b) (fun r => not_under_extracted_chats u b b r) _ _
    have hcfix : copyFold (extractedPre u b) (chatsPre u b)
        (publishAndMirror env w u f b F).1.store
        (listBlobs (publishAndMirror env w u f b F).1.store (extractedPre u b))
        = (publishAndMirror env w u f b F).1.store := by
      rw [hL2]
      refine copyFold_fix _ _ _ _ ?_
      intro nb hnb
      rw [hw1store']
      obtain ⟨nm, bl⟩ := nb
      refine copyFold_get_mem _ _ _ _ (nodup_names_listBlobs _ hndst1) ?_
        nm bl hnb
      intro x hx
      obtain ⟨xn, xb⟩ := x
      exact (mem_listBlobs.mp hx).2
    refine ⟨?_, ?_, ?_⟩
    · rw [hr2store, hM2eq]
      exact hcfix
    · rw [hr2cache, hM2eq, hm2]
      simp
    · rw [hr2cache, hM2eq]
      refine map_fst_mapPut_of_isSome _ ?_
      rw [hw1cache', mapGet_mapPut_self]
      rfl
  · have hm1' : existsBlob
        (publishFiles u f b env.uploadFailSet w.store 0 F).1 (markerKey u b)
        = false := by
      simpa using hm1
    have hM1eq := mirrorStage_absent env u b
      (publishFiles u f b env.uploadFailSet w.store 0 F).1 w.cache hm1'
    have hw1store' : (publishAndMirror env w u f b F).1.store
        = (publishFiles u f b env.uploadFailSet w.store 0 F).1 := by
      rw [hw1store, hM1eq]
    have hw1cache' : (publishAndMirror env w u f b F).1.cache = w.cache := by
      rw [hw1cache, hM1eq]
    have hm2 : existsBlob (publishAndMirror env w u f b F).1.store
        (markerKey u b) = false := by
      rw [hw1store']
      exact hm1'
    have hM2eq := mirrorStage_absent env' u b
      (publishAndMirror env w u f b F).1.store
      (publishAndMirror env w u f b F).1.cache hm2
    refine ⟨?_, ?_, ?_⟩
    · rw [hr2store, hM2eq]
    · rw [hr2cache, hM2eq, hm2]
      simp
    · rw [hr2cache, hM2eq]

/-- C8: rerunning the full pipeline on the same archive at the same key
(same extraction result, no injected faults) leaves the storage bucket
exactly as after the first run; the cache is unchanged when the marker is
absent and is the single record at `(u, b)` refreshed to the second run's
server timestamp when the marker is present; and the set of cache keys is
unchanged — no duplicate record is created. -/
theorem claim8_rerun_idempotent (env env' : Env) (w : World)
    (p u f b : String) (entries : List (String × List Nat))
    (hr : pathRouter p = .eligible u f b)
    (hd : env.downloadOk = true) (hd' : env'.downloadOk = true)
    (hz : env.zipResult = .ok entries) (hz' : env'.zipResult = .ok entries)
    (hup : env.uploadFailSet = []) (hcf : env.copyFailSet = [])
    (hcf' : env'.copyFailSet = [])
    (hnd : (entries.map Prod.fst).Nodup)
    (hwf : (w.store.map Prod.fst).Nodup) :
    (extract_zip env' (extract_zip env w p).1 p).1.store
      = (extract_zip env w p).1.store
    ∧ (extract_zip env' (extract_zip env w p).1 p).1.cache
      = (if existsBlob (extract_zip env w p).1.store (markerKey u b)
         then mapPut (extract_zip env w p).1.cache (u, b) env'.now
         else (extract_zip env w p).1.cache)
    ∧ ((extract_zip env' (extract_zip env w p).1 p).1.cache).map Prod.fst
      = ((extract_zip env w p).1.cache).map Prod.fst := by
  obtain ⟨hel, hu, hf, hb⟩ := pathRouter_eligible_elim hr
  have hrun1 := extract_zip_run env w p u f b entries hr hd hz
  have hppub : mapGet (publishFiles u f b env.uploadFailSet w.store 0
      (tempDirFiles f (((mapGet w.store p).map Blob.content).getD [])
        entries)).1 p = mapGet w.store p := by
    refine publishFiles_get_other u f b env.uploadFailSet _ w.store 0 p ?_
    intro rc hrc he
    have hne := (eligible_key_disjoint p hel b rc.1).1
    rw [← hu] at hne
    rw [pubDst_eq] at he
    exact hne he
  have hkmp : underPre (chatsPre u b) p = false := by
    have h2 := (eligible_key_disjoint p hel b "").2.1
    rw [← hu] at h2
    exact h2
  have hw1store_p : mapGet (extract_zip env w p).1.store p
      = mapGet w.store p := by
    rw [hrun1, publishAndMirror_store]
    rw [mirrorStage_store_not_under_chats env u b _ w.cache p hkmp]
    exact hppub
  have hrun2 : extract_zip env' (extract_zip env w p).1 p
      = publishAndMirror env' (extract_zip env w p).1 u f b
          (tempDirFiles f (((mapGet w.store p).map Blob.content).getD [])
            entries) := by
    rw [extract_zip_run env' ((extract_zip env w p).1) p u f b entries
      hr hd' hz']
    rw [hw1store_p]
  have hpm := publishAndMirror_rerun env env' w u f b
    (tempDirFiles f (((mapGet w.store p).map Blob.content).getD []) entries)
    (nodup_tempDirFiles hnd) hup hcf hcf' hwf
  rw [hrun2, hrun1]
  exact hpm

/-! ### Concrete sample data for witnesses -/

/-- A sample archive: a chat transcript and one nested media file. -/
def entries0 : List (String × List Nat) :=
  [("_chat.txt", [1, 2]), ("sub/b.txt", [3])]

/-- A fault-free environment for the sample archive. -/
def env0 : Env :=
  { downloadOk := true
    zipResult := .ok entries0
    uploadFailSet := [], copyFailSet := [], chunks := [], now := 7 }

/-- The same environment at a later server timestamp (second delivery). -/
def env1 : Env :=
  { downloadOk := true
    zipResult := .ok entries0
    uploadFailSet := [], copyFailSet := [], chunks := [], now := 9 }

/-- An environment whose download decodes as a corrupt zip. -/
def envBad : Env :=
  { downloadOk := true
    zipResult := .badZip
    uploadFailSet := [], copyFailSet := [], chunks := [], now := 0 }

/-- An environment whose archive holds no `_chat.txt`. -/
def envNoMarker : Env :=
  { downloadOk := true
    zipResult := .ok [("a.txt", [1])]
    uploadFailSet := [], copyFailSet := [], chunks := [], now := 7 }

/-- An environment in which one destination upload faults. -/
def envOneFail : Env :=
  { downloadOk := true
    zipResult := .ok entries0
    uploadFailSet := ["user/u1/extracted/backup/sub/b.txt"]
    copyFailSet := [], chunks := [], now := 7 }

/-- An environment in which copying the marker object faults. -/
def envCopyFail : Env :=
  { downloadOk := true
    zipResult := .ok entries0
    uploadFailSet := []
    copyFailSet := ["user/u1/extracted/backup/_chat.txt"]
    chunks := [], now := 7 }

/-- The sample uploaded-archive key. -/
def zipKey0 : String := "user/u1/uploads/backup.zip"

/-- A world holding only the uploaded archive. -/
def w0 : World :=
  { store := [(zipKey0, { content := [9], contentType := some "zip" })]
    cache := [] }

/-- A sample post-publish store: the two extracted objects. -/
def st0 : Store :=
  [("user/u1/extracted/backup/_chat.txt",
      { content := [1, 2], contentType := none }),
   ("user/u1/extracted/backup/sub/b.txt",
      { content := [3], contentType := none })]

/-! ### Witnesses -/

/-- Witness for C1 at the concrete post-publish store `st0`. -/
theorem claim1_witness :
    (mirrorStage env0 "u1" "backup" st0 ([] : Cache)).2 = false
    ∧ (∀ name blob,
        (name, blob) ∈ listBlobs st0 (extractedPre "u1" "backup") →
        mapGet (mirrorStage env0 "u1" "backup" st0 ([] : Cache)).1.1
          (copyDst (extractedPre "u1" "backup") (chatsPre "u1" "backup") name)
          = some blob)
    ∧ mapGet (mirrorStage env0 "u1" "backup" st0 ([] : Cache)).1.2.1
        ("u1", "backup") = some env0.now
    ∧ (∀ key, key ≠ ("u1", "backup") →
        mapGet (mirrorStage env0 "u1" "backup" st0 ([] : Cache)).1.2.1 key
          = mapGet ([] : Cache) key)
    ∧ (∃ pre, (mirrorStage env0 "u1" "backup" st0 ([] : Cache)).1.2.2
          = pre ++ [Ev.cacheWrite "u1" "backup" env0.now]
        ∧ (∀ e ∈ pre, e.isCacheWrite = false)
        ∧ ∀ name blob,
            (name, blob) ∈ listBlobs st0 (extractedPre "u1" "backup") →
            Ev.copied name (copyDst (extractedPre "u1" "backup")
              (chatsPre "u1" "backup") name) ∈ pre) :=
  claim1_marker_present_mirror_then_cache env0 "u1" "backup" st0 ([] : Cache)
    (by decide) (by decide) rfl

/-- Witness for C3 on the sample archive. -/
theorem claim3_witness :
    ("u1" = (pySplit zipKey0 '/').getD 1 ""
      ∧ "backup.zip" = (pySplit zipKey0 '/').getLastD ""
      ∧ "backup" = (splitext "backup.zip").1)
    ∧ (∀ rel c, (rel, c) ∈ entries0 →
        ((pySplit rel '/').getLastD "" == "backup.zip") = false →
        pubDst "u1" "backup" rel ∉ env0.uploadFailSet →
        mapGet (extract_zip env0 w0 zipKey0).1.store
          (pubDst "u1" "backup" rel) = some (uploadBlob c))
    ∧ (∀ rel c, (rel, c) ∈ entries0 →
        ((pySplit rel '/').getLastD "" == "backup.zip") = true →
        Ev.uploaded (pubDst "u1" "backup" rel)
            ∉ (extract_zip env0 w0 zipKey0).2.2
        ∧ Ev.uploadFailed (pubDst "u1" "backup" rel)
            ∉ (extract_zip env0 w0 zipKey0).2.2) :=
  claim3_publish_destinations env0 w0 zipKey0 "u1" "backup.zip" "backup"
    entries0 (by decide) rfl rfl (by decide)

/-- Witness for C4 with one faulted upload destination. -/
theorem claim4_witness :
    (∀ rel c, (rel, c) ∈ entries0 →
        ((pySplit rel '/').getLastD "" == "backup.zip") = false →
        pubDst "u1" "backup" rel ∉ envOneFail.uploadFailSet →
        mapGet (extract_zip envOneFail w0 zipKey0).1.store
            (pubDst "u1" "backup" rel) = some (uploadBlob c)
          ∧ Ev.uploaded (pubDst "u1" "backup" rel)
            ∈ (extract_zip envOneFail w0 zipKey0).2.2)
    ∧ (∃ present,
        Ev.markerCheck present ∈ (extract_zip envOneFail w0 zipKey0).2.2)
    ∧ (∀ n, (extract_zip envOneFail w0 zipKey0).2.1 = RunResult.done n →
        n = ((extract_zip envOneFail w0 zipKey0).2.2.filter
          Ev.isUploaded).length) :=
  claim4_partial_failure_isolation envOneFail w0 zipKey0 "u1" "backup.zip"
    "backup" entries0 (by decide) rfl rfl (by decide)

/-- Witness for C5 on an archive without the marker. -/
theorem claim5_witness :
    (∀ k, underPre (chatsPre "u1" "backup") k = true →
      mapGet (extract_zip envNoMarker w0 zipKey0).1.store k
        = mapGet w0.store k)
    ∧ (extract_zip envNoMarker w0 zipKey0).1.cache = w0.cache :=
  claim5_marker_absent_no_mirror_no_cache envNoMarker w0 zipKey0 "u1"
    "backup.zip" "backup" [("a.txt", [1])] (by decide) rfl rfl (by decide)

/-- Witness for C6 with a copy fault on the marker object. -/
theorem claim6_witness :
    (mirrorStage envCopyFail "u1" "backup" st0 ([] : Cache)).2 = true
    ∧ (mirrorStage envCopyFail "u1" "backup" st0 ([] : Cache)).1.2.1
        = ([] : Cache)
    ∧ (∀ e ∈ (mirrorStage envCopyFail "u1" "backup" st0 ([] : Cache)).1.2.2,
        e.isCacheWrite = false)
    ∧ (∀ k, underPre (extractedPre "u1" "backup") k = true →
        mapGet (mirrorStage envCopyFail "u1" "backup" st0 ([] : Cache)).1.1 k
          = mapGet st0 k)
    ∧ (∃ nb ∈ listBlobs st0 (extractedPre "u1" "backup"),
        nb.1 ∈ envCopyFail.copyFailSet ∧
        Ev.copied nb.1 (copyDst (extractedPre "u1" "backup")
            (chatsPre "u1" "backup") nb.1)
          ∉ (mirrorStage envCopyFail "u1" "backup" st0 ([] : Cache)).1.2.2) :=
  claim6_cache_only_after_full_copy envCopyFail "u1" "backup" st0 ([] : Cache)
    (by decide) (by decide)

/-- Witness for C7 on corrupt zip bytes at a valid key. -/
theorem claim7_witness :
    (envBad.zipResult = ZipResult.badZip →
      extract_zip envBad w0 zipKey0 = (w0, RunResult.badZip, []))
    ∧ (envBad.zipResult = ZipResult.extractError →
      extract_zip envBad w0 zipKey0 = (w0, RunResult.extractError, [])) :=
  claim7_corrupt_archive_terminal envBad w0 zipKey0 "u1" "backup.zip" "backup"
    (by decide) rfl

/-- Witness for C8: a concrete second delivery of the same archive. -/
theorem claim8_witness :
    (extract_zip env1 (extract_zip env0 w0 zipKey0).1 zipKey0).1.store
      = (extract_zip env0 w0 zipKey0).1.store
    ∧ (extract_zip env1 (extract_zip env0 w0 zipKey0).1 zipKey0).1.cache
      = (if existsBlob (extract_zip env0 w0 zipKey0).1.store
            (markerKey "u1" "backup")
         then mapPut (extract_zip env0 w0 zipKey0).1.cache ("u1", "backup")
            env1.now
         else (extract_zip env0 w0 zipKey0).1.cache)
    ∧ ((extract_zip env1 (extract_zip env0 w0 zipKey0).1
          zipKey0).1.cache).map Prod.fst
      = ((extract_zip env0 w0 zipKey0).1.cache).map Prod.fst :=
  claim8_rerun_idempotent env0 env1 w0 zipKey0 "u1" "backup.zip" "backup"
    entries0 (by decide) rfl rfl rfl rfl rfl rfl rfl (by decide) (by decide)

end WhatsappHistory
